import Mathlib

/-!
Verification of the grouping-strategy engine in
`src/sentry/grouping/strategies/base.py`.

The Python module is embedded shallowly:

* Python `dict`s become insertion-ordered association lists
  (`List (String × α)`) with `dictGet` / `dictInsert` / `dictPop`
  mirroring `d[k]`, `d[k] = v` and `d.pop(k, None)`.
* `Strategy` keeps the fields the configuration algorithms inspect
  (`id`, `name`, `interfaces`, `score`); the wrapped computation is
  passed explicitly to the functions that invoke it.
* Fallible code (`assert`, `raise`) returns `Except`.
* The strategy registry (the module-level `STRATEGIES` dict) is passed
  explicitly as a value to the functions that read it.
-/

namespace SentryGrouping

/-- Python dict lookup `d.get(k)` on an insertion-ordered association list. -/
def dictGet {α : Type} (k : String) : List (String × α) → Option α
  | [] => none
  | (k₁, v) :: rest => if k₁ = k then some v else dictGet k rest

/-- Python dict write `d[k] = v`: replaces the value in place when the key is
present, otherwise appends a new entry at the end. -/
def dictInsert {α : Type} (k : String) (v : α) : List (String × α) → List (String × α)
  | [] => [(k, v)]
  | (k₁, v₁) :: rest => if k₁ = k then (k, v) :: rest else (k₁, v₁) :: dictInsert k v rest

/-- Python dict removal `d.pop(k, None)`: removes the entry for `k`
(keys of a Python dict are unique, so removing the first occurrence suffices). -/
def dictPop {α : Type} (k : String) : List (String × α) → List (String × α)
  | [] => []
  | (k₁, v₁) :: rest => if k₁ = k then rest else (k₁, v₁) :: dictPop k rest

/-- The keys of an association list, in order. -/
def dictKeys {α : Type} (d : List (String × α)) : List String := d.map (fun p => p.1)

instance {ε α : Type} [DecidableEq ε] [DecidableEq α] : DecidableEq (Except ε α)
  | .ok a, .ok b =>
    if h : a = b then .isTrue (congrArg Except.ok h)
    else .isFalse (fun hc => h (Except.ok.inj hc))
  | .ok _, .error _ => .isFalse (fun hc => Except.noConfusion hc)
  | .error _, .ok _ => .isFalse (fun hc => Except.noConfusion hc)
  | .error a, .error b =>
    if h : a = b then .isTrue (congrArg Except.error h)
    else .isFalse (fun hc => h (Except.error.inj hc))

/-- Risk level constant from the source. -/
def RISK_LEVEL_LOW : Nat := 0

/-- A registered strategy.  The source's `Strategy.__init__` additionally
stores the wrapped function and an optional variant processor; those are
passed explicitly to the evaluation functions below, so only the data the
configuration-composition algorithms inspect is kept here. -/
structure Strategy where
  id : String
  name : String
  interfaces : List String
  score : Option Int
deriving DecidableEq

/-- The substring of `id` before the first colon: `id.split(":", 1)[0]`. -/
def strategyClassOf (id : String) : String :=
  ⟨id.data.takeWhile (fun c => c ≠ ':')⟩

/-- Source: `self.strategy_class = id.split(":", 1)[0]` in `Strategy.__init__`. -/
def Strategy.strategyClass (s : Strategy) : String := strategyClassOf s.id

/-- The errors raised during configuration building fall in three groups
(`LookupError` for an unknown strategy, `RuntimeError` for an unscored
strategy, `RuntimeError` for a duplicate delegate interface). -/
inductive BuildError where
  | unknownStrategy (id : String)
  | unscoredStrategy (id : String)
  | duplicateDelegate (iface : String)
deriving DecidableEq

/-- Source `lookup_strategy`: looks up a strategy by id in the registry. -/
def lookup_strategy (registry : List (String × Strategy)) (strategyId : String) :
    Except BuildError Strategy :=
  match dictGet strategyId registry with
  | some s => .ok s
  | none => .error (.unknownStrategy strategyId)

/-- Source: `by_class.setdefault(cls, []).append(i)`. -/
def setdefaultAppend (cls : String) (i : String) :
    List (String × List String) → List (String × List String)
  | [] => [(cls, [i])]
  | (k₁, vs) :: rest =>
    if k₁ = cls then (k₁, vs ++ [i]) :: rest else (k₁, vs) :: setdefaultAppend cls i rest

/-- The `by_class` table of `create_strategy_configuration`: for every
inherited strategy, its id is appended to the bucket of its strategy class. -/
def buildByClass : List (String × Strategy) → List (String × List String) →
    List (String × List String)
  | [], acc => acc
  | p :: rest, acc => buildByClass rest (setdefaultAppend p.2.strategyClass p.2.id acc)

/-- The bucket of a class in the `by_class` table (`by_class.get(cls) or ()`). -/
def bucketOf (byClass : List (String × List String)) (cls : String) : List String :=
  (dictGet cls byClass).getD []

/-- The eviction loop: `for old_id in by_class.get(strategy.strategy_class) or ():
strategies.pop(old_id, None)`. -/
def evictClass (byClass : List (String × List String)) (cls : String)
    (s : List (String × Strategy)) : List (String × Strategy) :=
  (bucketOf byClass cls).foldl (fun acc oldId => dictPop oldId acc) s

/-- The strategy loop of `create_strategy_configuration`: look each requested
id up, fail if it is unscored, evict inherited entries of the same class and
insert the strategy under its id. -/
def add_strategies (registry : List (String × Strategy))
    (byClass : List (String × List String)) :
    List String → List (String × Strategy) → Except BuildError (List (String × Strategy))
  | [], s => .ok s
  | strategyId :: rest, s =>
    match dictGet strategyId registry with
    | none => .error (.unknownStrategy strategyId)
    | some strat =>
      if strat.score = none then .error (.unscoredStrategy strategyId)
      else
        add_strategies registry byClass rest
          (dictInsert strategyId strat (evictClass byClass strat.strategyClass s))

/-- The inner interface loop of the delegate phase: for every interface the
delegate declares, fail if the interface was already claimed in this build,
otherwise install the delegate and record the interface as newly claimed. -/
def addDelegateInterfaces (strat : Strategy) :
    List String → List String → List (String × Strategy) →
    Except BuildError (List String × List (String × Strategy))
  | [], newDelegates, d => .ok (newDelegates, d)
  | iface :: rest, newDelegates, d =>
    if iface ∈ newDelegates then .error (.duplicateDelegate iface)
    else addDelegateInterfaces strat rest (iface :: newDelegates) (dictInsert iface strat d)

/-- The delegate loop of `create_strategy_configuration`. -/
def add_delegates (registry : List (String × Strategy)) :
    List String → List String → List (String × Strategy) →
    Except BuildError (List (String × Strategy))
  | [], _, d => .ok d
  | strategyId :: rest, newDelegates, d =>
    match dictGet strategyId registry with
    | none => .error (.unknownStrategy strategyId)
    | some strat =>
      match addDelegateInterfaces strat strat.interfaces newDelegates d with
      | .error e => .error e
      | .ok (nd, d₁) => add_delegates registry rest nd d₁

/-- A built strategy configuration (the class attributes the source sets on
`NewStrategyConfiguration`; `changelog` and `enhancements` are external
conveniences no claim depends on and are omitted). -/
structure StrategyConfiguration where
  id : String
  strategies : List (String × Strategy)
  delegates : List (String × Strategy)
  initial_context : List (String × String)
  risk : Nat
  hidden : Bool
deriving DecidableEq

/-- Source `create_strategy_configuration`: seed the three mappings from the base,
run the strategy loop (lookup, score check, class eviction, insert), the
delegate loop (duplicate-interface check among the newly added delegates),
and merge the initial-context overrides. -/
def create_strategy_configuration (registry : List (String × Strategy)) (id : String)
    (strategies : List String) (delegates : List String)
    (base : Option StrategyConfiguration) (risk : Option Nat) (hidden : Bool)
    (initial_context : List (String × String)) : Except BuildError StrategyConfiguration :=
  let baseStrategies := match base with | some b => b.strategies | none => []
  let baseDelegates := match base with | some b => b.delegates | none => []
  let baseContext := match base with | some b => b.initial_context | none => []
  match add_strategies registry (buildByClass baseStrategies []) strategies baseStrategies with
  | .error e => .error e
  | .ok strategies₁ =>
    match add_delegates registry delegates [] baseDelegates with
    | .error e => .error e
    | .ok delegates₁ =>
      .ok { id := id, strategies := strategies₁, delegates := delegates₁,
            initial_context := initial_context.foldl (fun acc p => dictInsert p.1 p.2 acc) baseContext,
            risk := risk.getD RISK_LEVEL_LOW, hidden := hidden }

/-!
Section: The variant-resolution algorithm (`call_with_variants`)

Modelled from the spec: the grouping-component tree node is an external
collaborator; the engine only relies on its `contributes` flag, a
deterministic `get_hash()` and an `update(contributes=..., hint=...)`
mutator, so it is embedded as a record of exactly those observables.
-/

structure GroupingComponent where
  contributes : Bool
  hash : String
  hint : Option String
deriving DecidableEq

/-- Modelled from the spec: `component.update(contributes=..., hint=...)`
retroactively overwrites the contribution flag and attaches a reason. -/
def GroupingComponent.update (c : GroupingComponent) (newContributes : Bool)
    (newHint : String) : GroupingComponent :=
  { c with contributes := newContributes, hint := some newHint }

/-- Failures of `call_with_variants`: the assert guarding a pinned variant
against the declared candidate set, the single-entry assert on the wrapped
function's result, and a dict lookup miss. -/
inductive VariantError where
  | invalidVariantPin
  | assertionFailed
  | keyError
deriving DecidableEq

/-- The wrapped strategy function, as `call_with_variants` sees it: with the
context pinned to a variant name it returns a dict of variant name to
component-or-None. -/
abbrev VariantFun := String → List (String × Option GroupingComponent)

/-- Source: `variant[:1] == "!"`. -/
def isMandatoryVariant (v : String) : Bool :=
  match v.data with
  | [] => false
  | c :: _ => c = '!'

/-- Source: `variant.lstrip("!")`. -/
def stripMandatory (v : String) : String :=
  ⟨v.data.dropWhile (fun c => c = '!')⟩

/-- The mutable loop state of the candidate loop in `call_with_variants`. -/
structure VariantLoopState where
  rv : List (String × GroupingComponent)
  hasMandatoryHashes : Bool
  mandatoryContributingHashes : List (String × String)
  optionalContributingVariants : List String
deriving DecidableEq

/-- The candidate loop of `call_with_variants`: pin each candidate in turn,
invoke the function, skip inapplicable (`None`) components, and track the
mandatory-contributing hashes and the optional contributing variants. -/
def collectVariantComponents (f : VariantFun) :
    List String → VariantLoopState → Except VariantError VariantLoopState
  | [], st => .ok st
  | variant₀ :: rest, st =>
    let isMandatory := isMandatoryVariant variant₀
    let variant := stripMandatory variant₀
    let produced := f variant
    if produced.length ≠ 1 then .error .assertionFailed
    else
      match dictGet variant produced with
      | none => .error .keyError
      | some none => collectVariantComponents f rest st
      | some (some component) =>
        let st₁ := { st with hasMandatoryHashes := st.hasMandatoryHashes || isMandatory }
        let st₂ :=
          if component.contributes then
            if isMandatory then
              { st₁ with mandatoryContributingHashes :=
                  dictInsert component.hash variant st₁.mandatoryContributingHashes }
            else
              { st₁ with optionalContributingVariants :=
                  st₁.optionalContributingVariants ++ [variant] }
          else st₁
        collectVariantComponents f rest { st₂ with rv := dictInsert variant component st₂.rv }

/-- The hint attached when the mandatory-contributing set is empty:
`"ignored because %s variant is not used"` where `%s` is the single
mandatory contributing variant's name if there is exactly one, otherwise
the literal `"other mandatory"`. -/
def mandatoryMissingHint (mch : List (String × String)) : String :=
  "ignored because " ++
    (match mch with
     | [(_, v)] => v
     | _ => "other mandatory") ++ " variant is not used"

/-- The suppression pass over the optional contributing variants: if
`prevent_contribution` is set the component is force-marked non-contributing,
otherwise it is marked non-contributing only when its hash collides with a
mandatory contributing hash. -/
def applyVariantSuppression (preventContribution : Bool) (mch : List (String × String)) :
    List String → List (String × GroupingComponent) →
    Except VariantError (List (String × GroupingComponent))
  | [], rv => .ok rv
  | variant :: rest, rv =>
    match dictGet variant rv with
    | none => .error .keyError
    | some component =>
      if preventContribution then
        applyVariantSuppression preventContribution mch rest
          (dictInsert variant (component.update false (mandatoryMissingHint mch)) rv)
      else
        match dictGet component.hash mch with
        | some duplicateOf =>
          applyVariantSuppression preventContribution mch rest
            (dictInsert variant
              (component.update false
                ("ignored because hash matches " ++ duplicateOf ++ " variant")) rv)
        | none => applyVariantSuppression preventContribution mch rest rv

/-- Source `call_with_variants`: with a pinned context variant, act as a delegate
(assert the pin is a declared candidate, call once, return the result
unchanged); otherwise run the candidate loop, compute
`prevent_contribution = has_mandatory_hashes and not mandatory_contributing_hashes`,
and run the suppression pass. -/
def call_with_variants (f : VariantFun) (variants : List String)
    (contextVariant : Option String) :
    Except VariantError (List (String × Option GroupingComponent)) :=
  match contextVariant with
  | some pinned =>
    if pinned ∈ variants ∨ ("!" ++ pinned) ∈ variants then .ok (f pinned)
    else .error .invalidVariantPin
  | none =>
    match collectVariantComponents f variants ⟨[], false, [], []⟩ with
    | .error e => .error e
    | .ok st =>
      let preventContribution :=
        st.hasMandatoryHashes && st.mandatoryContributingHashes.isEmpty
      match applyVariantSuppression preventContribution st.mandatoryContributingHashes
          st.optionalContributingVariants st.rv with
      | .error e => .error e
      | .ok rv => .ok (rv.map (fun p => (p.1, some p.2)))

/-!
Section: `call_with_variants` with the hint wording the suppression pass can
actually produce

The source computes the mandatory-missing hint through
`mandatoryMissingHint`, which names the single mandatory contributing
variant when there is exactly one.  The following copy of the algorithm
states the behaviour claimed of the code: the hint attached by the
mandatory-empty rule is always the literal
"ignored because other mandatory variant is not used".
-/

/-- The suppression pass with the mandatory-missing hint fixed to the
"other mandatory" wording. -/
def applyVariantSuppressionOtherMandatory (preventContribution : Bool)
    (mch : List (String × String)) :
    List String → List (String × GroupingComponent) →
    Except VariantError (List (String × GroupingComponent))
  | [], rv => .ok rv
  | variant :: rest, rv =>
    match dictGet variant rv with
    | none => .error .keyError
    | some component =>
      if preventContribution then
        applyVariantSuppressionOtherMandatory preventContribution mch rest
          (dictInsert variant
            (component.update false "ignored because other mandatory variant is not used") rv)
      else
        match dictGet component.hash mch with
        | some duplicateOf =>
          applyVariantSuppressionOtherMandatory preventContribution mch rest
            (dictInsert variant
              (component.update false
                ("ignored because hash matches " ++ duplicateOf ++ " variant")) rv)
        | none => applyVariantSuppressionOtherMandatory preventContribution mch rest rv

/-- Copy of `call_with_variants` with the constant "other mandatory" hint wording. -/
def call_with_variants_other_mandatory (f : VariantFun) (variants : List String)
    (contextVariant : Option String) :
    Except VariantError (List (String × Option GroupingComponent)) :=
  match contextVariant with
  | some pinned =>
    if pinned ∈ variants ∨ ("!" ++ pinned) ∈ variants then .ok (f pinned)
    else .error .invalidVariantPin
  | none =>
    match collectVariantComponents f variants ⟨[], false, [], []⟩ with
    | .error e => .error e
    | .ok st =>
      let preventContribution :=
        st.hasMandatoryHashes && st.mandatoryContributingHashes.isEmpty
      match applyVariantSuppressionOtherMandatory preventContribution
          st.mandatoryContributingHashes st.optionalContributingVariants st.rv with
      | .error e => .error e
      | .ok rv => .ok (rv.map (fun p => (p.1, some p.2)))

/-!
Section: `Strategy.get_grouping_component` / `get_grouping_component_variants`

Modelled from the spec at the collaborator boundary: the event exposes
`interfaces.get(path)` returning a typed interface or null, so the event
is embedded as a lookup function `String → Option ι` with `ι` opaque.
The wrapped function receives the resolved interfaces and the variant the
context was pinned to (the scoped context push/pop of the source only
threads that pin).
-/

/-- The interface-resolution loop of `Strategy.get_grouping_component`:
`for iface_path in self.interfaces: ... if iface is None: return None`. -/
def resolveInterfaceArgs {ι : Type} (interfacePaths : List String)
    (eventInterfaces : String → Option ι) : Option (List ι) :=
  match interfacePaths with
  | [] => some []
  | p :: rest =>
    match eventInterfaces p with
    | none => none
    | some iface => (resolveInterfaceArgs rest eventInterfaces).map (fun args => iface :: args)

/-- Source `Strategy.get_grouping_component`: resolve every bound interface from the
event (returning null if any is absent), then invoke the wrapped function
with the resolved interfaces and the optional pinned variant. -/
def get_grouping_component {ι α : Type} (interfacePaths : List String)
    (eventInterfaces : String → Option ι) (func : List ι → Option String → Option α)
    (variant : Option String) : Option α :=
  match resolveInterfaceArgs interfacePaths eventInterfaces with
  | none => none
  | some args => func args variant

/-- Source `Strategy.get_grouping_component_variants`: call with no pinned variant;
on null return the empty mapping, otherwise pipe the variant mapping
through the registered variant processor when there is one. -/
def get_grouping_component_variants {ι : Type} (interfacePaths : List String)
    (eventInterfaces : String → Option ι)
    (func : List ι → Option String → Option (List (String × Option GroupingComponent)))
    (variantProcessorFunc :
      Option (List (String × Option GroupingComponent) → List (String × Option GroupingComponent))) :
    List (String × Option GroupingComponent) :=
  match get_grouping_component interfacePaths eventInterfaces func none with
  | none => []
  | some variants =>
    match variantProcessorFunc with
    | none => variants
    | some vp => vp variants

/-!
Section: Reference semantics of configuration building

`create_strategy_configuration` seeds the new configuration with
`dict(base.strategies)`, `dict(base.delegates)` and
`dict(base.initial_context)` — fresh dict objects holding copies of the
base's entries — and then mutates only those fresh dicts.  To state the
frame effect this heap model makes the dict objects explicit: a heap is a
list of dict contents addressed by position, a configuration holds the
addresses of its three dicts, and building allocates three fresh
addresses at the end of each heap.
-/

/-- The three dict addresses a built configuration holds. -/
structure ConfigRefs where
  strategiesRef : Nat
  delegatesRef : Nat
  contextRef : Nat
deriving DecidableEq

/-- A heap of dict objects, one list per value type; the address of a dict
is its position, and allocation appends. -/
structure DictHeap where
  strategyDicts : List (List (String × Strategy))
  delegateDicts : List (List (String × Strategy))
  contextDicts : List (List (String × String))
deriving DecidableEq

/-- Overwrite the contents of the strategies dict at an address
(a later in-place mutation of that dict object). -/
def DictHeap.setStrategyDict (heap : DictHeap) (a : Nat) (d : List (String × Strategy)) :
    DictHeap :=
  { heap with strategyDicts := heap.strategyDicts.set a d }

/-- Overwrite the contents of the delegates dict at an address. -/
def DictHeap.setDelegateDict (heap : DictHeap) (a : Nat) (d : List (String × Strategy)) :
    DictHeap :=
  { heap with delegateDicts := heap.delegateDicts.set a d }

/-- Overwrite the contents of the initial-context dict at an address. -/
def DictHeap.setContextDict (heap : DictHeap) (a : Nat) (d : List (String × String)) :
    DictHeap :=
  { heap with contextDicts := heap.contextDicts.set a d }

/-- Source `create_strategy_configuration` over the heap model: read the base's
dict contents (`dict(base.strategies)` copies them into fresh dicts), run
exactly the composition loops of `create_strategy_configuration` on the
copies, and allocate the results as three fresh dict objects. -/
def create_strategy_configuration_heap (registry : List (String × Strategy))
    (heap : DictHeap) (baseRefs : Option ConfigRefs)
    (strategies delegates : List String) (initial_context : List (String × String)) :
    Except BuildError (ConfigRefs × DictHeap) :=
  let baseStrategies := match baseRefs with
    | some r => heap.strategyDicts.getD r.strategiesRef []
    | none => []
  let baseDelegates := match baseRefs with
    | some r => heap.delegateDicts.getD r.delegatesRef []
    | none => []
  let baseContext := match baseRefs with
    | some r => heap.contextDicts.getD r.contextRef []
    | none => []
  match add_strategies registry (buildByClass baseStrategies []) strategies baseStrategies with
  | .error e => .error e
  | .ok strategies₁ =>
    match add_delegates registry delegates [] baseDelegates with
    | .error e => .error e
    | .ok delegates₁ =>
      .ok (⟨heap.strategyDicts.length, heap.delegateDicts.length, heap.contextDicts.length⟩,
           ⟨heap.strategyDicts ++ [strategies₁],
            heap.delegateDicts ++ [delegates₁],
            heap.contextDicts ++
              [initial_context.foldl (fun acc p => dictInsert p.1 p.2 acc) baseContext]⟩)

/-!
Section: Concrete fixtures used by scenario theorems and witnesses
-/

/-- Scenario B wrapped function: the `system` variant is inapplicable
(returns `None`), the `app` variant contributes with hash `"h2"`. -/
def scenarioBFun : VariantFun := fun v =>
  if v = "system" then [("system", none)]
  else [("app", some { contributes := true, hash := "h2", hint := none })]

/-- Scenario A wrapped function: the `system` variant yields `sysC`,
the `app` variant yields `appC`. -/
def scenarioAFun (sysC appC : Option GroupingComponent) : VariantFun := fun v =>
  if v = "system" then [("system", sysC)] else [("app", appC)]

/-- Scenario C wrapped function (delegate call with a pinned variant). -/
def scenarioCFun : VariantFun := fun v =>
  if v = "frames" then [("frames", some { contributes := true, hash := "hf", hint := none })]
  else [(v, none)]

def stratFooA : Strategy :=
  { id := "foo:a", name := "exception", interfaces := ["exception"], score := some 1 }

def stratFooB : Strategy :=
  { id := "foo:b", name := "exception", interfaces := ["exception"], score := some 2 }

def stratFooBase : Strategy :=
  { id := "foo:base", name := "exception", interfaces := ["exception"], score := some 0 }

def registryFoo : List (String × Strategy) := [("foo:a", stratFooA), ("foo:b", stratFooB)]

def baseFooConfig : StrategyConfiguration :=
  { id := "base-config", strategies := [("foo:base", stratFooBase)], delegates := [],
    initial_context := [], risk := 0, hidden := false }

def eventW : String → Option Nat := fun p => if p = "exception" then some 0 else none

def funcW : List Nat → Option String → Option Nat := fun _ _ => some 7

def funcVW : List Nat → Option String → Option (List (String × Option GroupingComponent)) :=
  fun _ _ => some [("app", none)]

/-- The interfaces declared by the requested delegate strategies of one
build call, in request order (unresolvable ids contribute nothing). -/
def allDelegateInterfaces (registry : List (String × Strategy)) : List String → List String
  | [] => []
  | r :: rest =>
    (match dictGet r registry with
     | some strat => strat.interfaces
     | none => []) ++ allDelegateInterfaces registry rest

/-- Whether a build outcome is the duplicate-delegate error. -/
def isDuplicateDelegateError {α : Type} : Except BuildError α → Bool
  | .error (.duplicateDelegate _) => true
  | _ => false

def delegateExcA : Strategy :=
  { id := "exc:a", name := "exception", interfaces := ["exception"], score := none }

def delegateExcB : Strategy :=
  { id := "exc:b", name := "exception", interfaces := ["exception"], score := none }

def delegateExcOld : Strategy :=
  { id := "exc:old", name := "exception", interfaces := ["exception"], score := none }

def registryDelegates : List (String × Strategy) :=
  [("exc:a", delegateExcA), ("exc:b", delegateExcB)]

def stratBarX : Strategy :=
  { id := "bar:x", name := "stacktrace", interfaces := ["stacktrace"], score := some 5 }

def baseBarConfig : StrategyConfiguration :=
  { id := "base-bar", strategies := [("bar:x", stratBarX)], delegates := [],
    initial_context := [], risk := 0, hidden := false }

def baseMixedConfig : StrategyConfiguration :=
  { id := "base-mixed", strategies := [("bar:x", stratBarX), ("foo:base", stratFooBase)],
    delegates := [], initial_context := [], risk := 0, hidden := false }

/-!
Section: Association-list lemmas
-/

theorem dictGet_dictInsert {α : Type} (k a : String) (v : α) :
    ∀ d : List (String × α),
      dictGet a (dictInsert k v d) = if k = a then some v else dictGet a d := by
  intro d
  induction d with
  | nil =>
    by_cases h : k = a <;> simp [dictInsert, dictGet, h]
  | cons p rest ih =>
    obtain ⟨k₁, v₁⟩ := p
    by_cases h1 : k₁ = k
    · subst h1
      by_cases h : k₁ = a <;> simp [dictInsert, dictGet, h]
    · by_cases h : k₁ = a
      · subst h
        have hk : ¬k = k₁ := fun hh => h1 hh.symm
        simp [dictInsert, dictGet, h1, hk]
      · simp [dictInsert, dictGet, h1, h, ih]

theorem dictGet_dictInsert_self {α : Type} (k : String) (v : α) (d : List (String × α)) :
    dictGet k (dictInsert k v d) = some v := by
  rw [dictGet_dictInsert]
  simp

/-!
Section: Claim theorems
-/

/-- C1: evaluating `call_with_variants` at the Scenario B input — candidates
`["!system", "app"]`, the mandatory `system` candidate returning `None` and
the optional `app` candidate contributing — the code returns the `app`
component still contributing and without any hint.  The `None` check
(`continue`) runs before `has_mandatory_hashes` is set, so the
mandatory-empty suppression the decorator's docstring promises never
fires. -/
theorem claim1_mandatory_none_no_suppression :
    call_with_variants scenarioBFun ["!system", "app"] none =
      .ok [("app", some { contributes := true, hash := "h2", hint := none })] := by
  decide

/-- C2 counterexample: building from no base with the two requested
strategies `foo:a` and `foo:b` — both of strategy class `foo` — keeps both
in the result, because the eviction table `by_class` is computed from the
inherited strategies only; so two active strategies of the same class
coexist, refuting the claimed invariant. -/
theorem claim2_counterexample :
    create_strategy_configuration registryFoo "test-config" ["foo:a", "foo:b"] [] none
        none false [] =
      .ok { id := "test-config", strategies := [("foo:a", stratFooA), ("foo:b", stratFooB)],
            delegates := [], initial_context := [], risk := 0, hidden := false } ∧
    stratFooA.strategyClass = "foo" ∧ stratFooB.strategyClass = "foo" := by
  decide

/-- C3: with candidates `["!system", "app"]` and both variants producing
contributing components of hash `"h1"`, the `app` component is marked
non-contributing with hint "ignored because hash matches system variant"
and the `system` component is returned unchanged. -/
theorem claim3_hash_collision_suppression (sysHint appHint : Option String) :
    call_with_variants
        (scenarioAFun (some { contributes := true, hash := "h1", hint := sysHint })
          (some { contributes := true, hash := "h1", hint := appHint }))
        ["!system", "app"] none =
      .ok [("system", some { contributes := true, hash := "h1", hint := sysHint }),
           ("app", some { contributes := false, hash := "h1",
                          hint := some "ignored because hash matches system variant" })] := by
  rfl

/-- C4 counterexample: class `foo` is present in the base (`foo:base`) and
specified in the derived configuration, but requesting `foo:a` and `foo:b`
in one build leaves two entries of class `foo` in the result, refuting
"exactly one entry for that class exists in the built result". -/
theorem claim4_counterexample :
    create_strategy_configuration registryFoo "derived-config" ["foo:a", "foo:b"] []
        (some baseFooConfig) none false [] =
      .ok { id := "derived-config",
            strategies := [("foo:a", stratFooA), ("foo:b", stratFooB)],
            delegates := [], initial_context := [], risk := 0, hidden := false } ∧
    stratFooBase.strategyClass = "foo" ∧ stratFooA.strategyClass = "foo" ∧
    stratFooB.strategyClass = "foo" := by
  decide

/-- C6: entered with a pinned context variant, `call_with_variants` returns
the wrapped function's single-call result unchanged when the pin is among
the declared candidates (with or without the mandatory marker), and fails
the assert otherwise. -/
theorem claim6_pinned_variant (f : VariantFun) (variants : List String) (pinned : String) :
    ((pinned ∈ variants ∨ ("!" ++ pinned) ∈ variants) →
      call_with_variants f variants (some pinned) = .ok (f pinned)) ∧
    (¬(pinned ∈ variants ∨ ("!" ++ pinned) ∈ variants) →
      call_with_variants f variants (some pinned) = .error .invalidVariantPin) := by
  constructor <;> intro h <;> simp [call_with_variants, h]

/-- Witness for C6 at Scenario C: pinned variant `"frames"` against
candidates `["frames", "app"]` returns the single produced entry
unmodified; an undeclared pin fails. -/
theorem claim6_pinned_variant_witness :
    (("frames" ∈ ["frames", "app"] ∨ ("!" ++ "frames") ∈ ["frames", "app"]) ∧
      call_with_variants scenarioCFun ["frames", "app"] (some "frames") =
        .ok (scenarioCFun "frames")) ∧
    (¬("bogus" ∈ ["frames", "app"] ∨ ("!" ++ "bogus") ∈ ["frames", "app"]) ∧
      call_with_variants scenarioCFun ["frames", "app"] (some "bogus") =
        .error .invalidVariantPin) :=
  ⟨⟨Or.inl (by decide),
    (claim6_pinned_variant scenarioCFun ["frames", "app"] "frames").1 (Or.inl (by decide))⟩,
   ⟨by decide,
    (claim6_pinned_variant scenarioCFun ["frames", "app"] "bogus").2 (by decide)⟩⟩

/-- If some bound interface is absent from the event, the resolution loop
returns `None`. -/
theorem resolveInterfaceArgs_eq_none {ι : Type} (eventInterfaces : String → Option ι) :
    ∀ paths : List String, (∃ p ∈ paths, eventInterfaces p = none) →
      resolveInterfaceArgs paths eventInterfaces = none := by
  intro paths
  induction paths with
  | nil =>
    rintro ⟨p, hp, -⟩
    cases hp
  | cons q rest ih =>
    rintro ⟨p, hp, hnone⟩
    simp only [resolveInterfaceArgs]
    rcases List.mem_cons.mp hp with h | h
    · subst h
      rw [hnone]
    · cases hq : eventInterfaces q with
      | none => rfl
      | some i => rw [ih ⟨p, h, hnone⟩]; rfl

/-- C8: if any bound interface is absent from the event,
`get_grouping_component` returns null whatever the wrapped function is
(so the function is never consulted), and
`get_grouping_component_variants` returns the empty mapping. -/
theorem claim8_missing_interface {ι α : Type} (paths : List String)
    (eventInterfaces : String → Option ι) (h : ∃ p ∈ paths, eventInterfaces p = none) :
    (∀ (func : List ι → Option String → Option α) (variant : Option String),
        get_grouping_component paths eventInterfaces func variant = none) ∧
    (∀ funcV variantProcessorFunc,
        get_grouping_component_variants paths eventInterfaces funcV variantProcessorFunc = []) := by
  have hr := resolveInterfaceArgs_eq_none eventInterfaces paths h
  constructor
  · intro func variant
    unfold get_grouping_component
    rw [hr]
  · intro funcV variantProcessorFunc
    unfold get_grouping_component_variants get_grouping_component
    rw [hr]

/-- Witness for C8: the event defines `exception` but not `stacktrace`, so a
strategy bound to both resolves to null and produces no variants. -/
theorem claim8_missing_interface_witness :
    (∃ p ∈ ["exception", "stacktrace"], eventW p = none) ∧
    get_grouping_component ["exception", "stacktrace"] eventW funcW none = none ∧
    get_grouping_component_variants ["exception", "stacktrace"] eventW funcVW none = [] :=
  ⟨by decide,
   (@claim8_missing_interface Nat Nat ["exception", "stacktrace"] eventW (by decide)).1 funcW none,
   (@claim8_missing_interface Nat Nat ["exception", "stacktrace"] eventW (by decide)).2 funcVW none⟩

/-- When the mandatory-empty trigger forces the set to be empty, the two
suppression passes agree. -/
theorem applyVariantSuppression_of_empty (prevent : Bool) (mch : List (String × String))
    (h : prevent = true → mch = []) :
    ∀ (ocv : List String) (rv : List (String × GroupingComponent)),
      applyVariantSuppression prevent mch ocv rv =
        applyVariantSuppressionOtherMandatory prevent mch ocv rv := by
  cases prevent with
  | false =>
    intro ocv
    induction ocv with
    | nil => intro rv; rfl
    | cons v rest ih =>
      intro rv
      cases hdv : dictGet v rv with
      | none =>
        simp [applyVariantSuppression, applyVariantSuppressionOtherMandatory, hdv]
      | some component =>
        cases hdh : dictGet component.hash mch with
        | none =>
          simp [applyVariantSuppression, applyVariantSuppressionOtherMandatory, hdv, hdh, ih]
        | some duplicateOf =>
          simp [applyVariantSuppression, applyVariantSuppressionOtherMandatory, hdv, hdh, ih]
  | true =>
    have hm : mch = [] := h rfl
    subst hm
    intro ocv
    induction ocv with
    | nil => intro rv; rfl
    | cons v rest ih =>
      intro rv
      cases hdv : dictGet v rv with
      | none =>
        simp [applyVariantSuppression, applyVariantSuppressionOtherMandatory, hdv]
      | some component =>
        simp [applyVariantSuppression, applyVariantSuppressionOtherMandatory, hdv, ih,
          mandatoryMissingHint]

/-- C10: the mandatory-empty suppression can only fire with an empty
mandatory-contributing set, so the hint it attaches is always exactly
"ignored because other mandatory variant is not used": `call_with_variants`
coincides with the copy whose hint is that constant, on every input. -/
theorem claim10_other_mandatory_hint (f : VariantFun) (variants : List String)
    (contextVariant : Option String) :
    call_with_variants f variants contextVariant =
      call_with_variants_other_mandatory f variants contextVariant := by
  cases contextVariant with
  | some pinned => rfl
  | none =>
    unfold call_with_variants call_with_variants_other_mandatory
    cases hc : collectVariantComponents f variants ⟨[], false, [], []⟩ with
    | error e => rfl
    | ok st =>
      have h : (st.hasMandatoryHashes && st.mandatoryContributingHashes.isEmpty) = true →
          st.mandatoryContributingHashes = [] := by
        intro hp
        cases hb : st.hasMandatoryHashes with
        | false =>
          rw [hb] at hp
          exact Bool.noConfusion hp
        | true =>
          rw [hb] at hp
          cases hm : st.mandatoryContributingHashes with
          | nil => rfl
          | cons a l =>
            rw [hm] at hp
            exact Bool.noConfusion hp
      dsimp only
      rw [applyVariantSuppression_of_empty _ _ h]

/-- Every optional contributing variant recorded by the candidate loop has an
entry in the collected `rv` dict. -/
theorem collectVariantComponents_ocv_in_rv (f : VariantFun) :
    ∀ (variants : List String) (st st' : VariantLoopState),
      collectVariantComponents f variants st = .ok st' →
      (∀ v ∈ st.optionalContributingVariants, (dictGet v st.rv).isSome = true) →
      ∀ v ∈ st'.optionalContributingVariants, (dictGet v st'.rv).isSome = true := by
  intro variants
  induction variants with
  | nil =>
    intro st st' hcol hinv
    simp only [collectVariantComponents] at hcol
    cases hcol
    exact hinv
  | cons v₀ rest ih =>
    intro st st' hcol hinv
    by_cases hlen : (f (stripMandatory v₀)).length ≠ 1
    · simp [collectVariantComponents, hlen] at hcol
    · cases hdg : dictGet (stripMandatory v₀) (f (stripMandatory v₀)) with
      | none => simp [collectVariantComponents, hlen, hdg] at hcol
      | some copt =>
        cases copt with
        | none =>
          simp only [collectVariantComponents, if_neg hlen, hdg] at hcol
          exact ih st st' hcol hinv
        | some component =>
          simp only [collectVariantComponents, if_neg hlen, hdg] at hcol
          cases hcon : component.contributes with
          | false =>
            rw [hcon] at hcol
            simp only [Bool.false_eq_true, if_false, ite_false] at hcol
            refine ih _ st' hcol ?_
            intro v hv
            rw [dictGet_dictInsert]
            by_cases hk : stripMandatory v₀ = v
            · simp [hk]
            · simp only [if_neg hk]
              exact hinv v hv
          | true =>
            rw [hcon] at hcol
            cases hman : isMandatoryVariant v₀ with
            | true =>
              rw [hman] at hcol
              simp only [ite_true, if_pos] at hcol
              refine ih _ st' hcol ?_
              intro v hv
              rw [dictGet_dictInsert]
              by_cases hk : stripMandatory v₀ = v
              · simp [hk]
              · simp only [if_neg hk]
                exact hinv v hv
            | false =>
              rw [hman] at hcol
              simp only [Bool.false_eq_true, if_false, ite_false, ite_true, if_pos] at hcol
              refine ih _ st' hcol ?_
              intro v hv
              rw [dictGet_dictInsert]
              by_cases hk : stripMandatory v₀ = v
              · simp [hk]
              · simp only [if_neg hk]
                rcases List.mem_append.mp hv with hv' | hv'
                · exact hinv v hv'
                · rcases List.mem_singleton.mp hv' with rfl
                  exact absurd rfl hk

/-- With no mandatory candidate in the list, the candidate loop leaves
`has_mandatory_hashes` and the mandatory-contributing set untouched. -/
theorem collectVariantComponents_no_mandatory (f : VariantFun) :
    ∀ (variants : List String) (st st' : VariantLoopState),
      (∀ v ∈ variants, isMandatoryVariant v = false) →
      collectVariantComponents f variants st = .ok st' →
      st'.hasMandatoryHashes = st.hasMandatoryHashes ∧
      st'.mandatoryContributingHashes = st.mandatoryContributingHashes := by
  intro variants
  induction variants with
  | nil =>
    intro st st' _ hcol
    simp only [collectVariantComponents] at hcol
    cases hcol
    exact ⟨rfl, rfl⟩
  | cons v₀ rest ih =>
    intro st st' h hcol
    have hm0 : isMandatoryVariant v₀ = false := h v₀ (List.mem_cons_self v₀ rest)
    have hrest : ∀ v ∈ rest, isMandatoryVariant v = false :=
      fun v hv => h v (List.mem_cons_of_mem _ hv)
    by_cases hlen : (f (stripMandatory v₀)).length ≠ 1
    · simp [collectVariantComponents, hlen] at hcol
    · cases hdg : dictGet (stripMandatory v₀) (f (stripMandatory v₀)) with
      | none => simp [collectVariantComponents, hlen, hdg] at hcol
      | some copt =>
        cases copt with
        | none =>
          simp only [collectVariantComponents, if_neg hlen, hdg] at hcol
          exact ih st st' hrest hcol
        | some component =>
          simp only [collectVariantComponents, if_neg hlen, hdg, hm0, Bool.or_false,
            Bool.false_eq_true, if_false, ite_false] at hcol
          cases hcon : component.contributes with
          | false =>
            rw [hcon] at hcol
            simp only [Bool.false_eq_true, if_false, ite_false] at hcol
            have hres := ih _ st' hrest hcol
            exact hres
          | true =>
            rw [hcon] at hcol
            simp only [ite_true, if_pos] at hcol
            have hres := ih _ st' hrest hcol
            exact hres

/-- With `prevent_contribution` unset and an empty mandatory-contributing
set, the suppression pass returns its input unchanged. -/
theorem applyVariantSuppression_false_nil :
    ∀ (ocv : List String) (rv : List (String × GroupingComponent)),
      (∀ v ∈ ocv, (dictGet v rv).isSome = true) →
      applyVariantSuppression false [] ocv rv = .ok rv := by
  intro ocv
  induction ocv with
  | nil => intro rv _; rfl
  | cons v rest ih =>
    intro rv hinv
    cases hdv : dictGet v rv with
    | none =>
      have hs := hinv v (List.mem_cons_self v rest)
      rw [hdv] at hs
      cases hs
    | some component =>
      have hrec := ih rv (fun u hu => hinv u (List.mem_cons_of_mem _ hu))
      simp [applyVariantSuppression, hdv, dictGet, hrec]

/-- C7: with zero mandatory candidates the algorithm returns exactly the raw
collected mapping — neither the mandatory-empty rule nor the hash-collision
rule marks any optional component non-contributing. -/
theorem claim7_no_mandatory_no_suppression (f : VariantFun) (variants : List String)
    (h : ∀ v ∈ variants, isMandatoryVariant v = false) :
    call_with_variants f variants none =
      (collectVariantComponents f variants ⟨[], false, [], []⟩).map
        (fun st => st.rv.map (fun p => (p.1, some p.2))) := by
  unfold call_with_variants
  cases hc : collectVariantComponents f variants ⟨[], false, [], []⟩ with
  | error e => rfl
  | ok st =>
    obtain ⟨hhm, hmch⟩ := collectVariantComponents_no_mandatory f variants _ st h hc
    have hinv : ∀ v ∈ st.optionalContributingVariants, (dictGet v st.rv).isSome = true :=
      collectVariantComponents_ocv_in_rv f variants _ st hc (by intro v hv; cases hv)
    have happ : applyVariantSuppression false [] st.optionalContributingVariants st.rv =
        .ok st.rv :=
      applyVariantSuppression_false_nil _ _ hinv
    dsimp only
    rw [hhm, hmch]
    simp only [Bool.false_and]
    rw [happ]
    rfl

/-- Witness for C7: two optional candidates whose components share hash
`"h1"`; the result is the raw collection, nothing suppressed. -/
theorem claim7_no_mandatory_no_suppression_witness :
    (∀ v ∈ ["system", "app"], isMandatoryVariant v = false) ∧
    call_with_variants
        (scenarioAFun (some { contributes := true, hash := "h1", hint := none })
          (some { contributes := true, hash := "h1", hint := none }))
        ["system", "app"] none =
      (collectVariantComponents
          (scenarioAFun (some { contributes := true, hash := "h1", hint := none })
            (some { contributes := true, hash := "h1", hint := none }))
          ["system", "app"] ⟨[], false, [], []⟩).map
        (fun st => st.rv.map (fun p => (p.1, some p.2))) :=
  ⟨by decide,
   claim7_no_mandatory_no_suppression
     (scenarioAFun (some { contributes := true, hash := "h1", hint := none })
       (some { contributes := true, hash := "h1", hint := none }))
     ["system", "app"] (by decide)⟩

/-- A successful run of the interface loop: the claimed-set accumulator grows
by exactly the declared interfaces, which are themselves duplicate-free and
disjoint from the interfaces already claimed. -/
theorem addDelegateInterfaces_ok (strat : Strategy) :
    ∀ (l nd : List String) (d : List (String × Strategy)) (nd₁ : List String)
      (d₁ : List (String × Strategy)),
      addDelegateInterfaces strat l nd d = .ok (nd₁, d₁) →
      nd₁ = l.reverse ++ nd ∧ l.Nodup ∧ ∀ i ∈ l, i ∉ nd := by
  intro l
  induction l with
  | nil =>
    intro nd d nd₁ d₁ hok
    cases hok
    exact ⟨by simp, List.nodup_nil, by intro i hi; cases hi⟩
  | cons i rest ih =>
    intro nd d nd₁ d₁ hok
    by_cases hmem : i ∈ nd
    · simp [addDelegateInterfaces, hmem] at hok
    · simp only [addDelegateInterfaces, if_neg hmem] at hok
      obtain ⟨hnd, hnodup, hfresh⟩ := ih (i :: nd) (dictInsert i strat d) nd₁ d₁ hok
      refine ⟨?_, ?_, ?_⟩
      · rw [hnd]
        simp
      · refine List.nodup_cons.mpr ⟨?_, hnodup⟩
        intro hir
        exact (hfresh i hir) (List.mem_cons_self i nd)
      · intro j hj
        rcases List.mem_cons.mp hj with rfl | hj₁
        · exact hmem
        · intro hjn
          exact (hfresh j hj₁) (List.mem_cons_of_mem _ hjn)

/-- The interface loop either succeeds or fails with the duplicate-delegate
error (never any other error). -/
theorem addDelegateInterfaces_ok_or_dup (strat : Strategy) :
    ∀ (l nd : List String) (d : List (String × Strategy)),
      (∃ p, addDelegateInterfaces strat l nd d = .ok p) ∨
      (∃ i, addDelegateInterfaces strat l nd d = .error (.duplicateDelegate i)) := by
  intro l
  induction l with
  | nil => intro nd d; exact Or.inl ⟨(nd, d), rfl⟩
  | cons i rest ih =>
    intro nd d
    by_cases hmem : i ∈ nd
    · exact Or.inr ⟨i, by simp [addDelegateInterfaces, hmem]⟩
    · simp only [addDelegateInterfaces, if_neg hmem]
      exact ih (i :: nd) (dictInsert i strat d)

/-- A successful delegate phase means the requested delegates' declared
interfaces are pairwise distinct and disjoint from the already-claimed set. -/
theorem add_delegates_ok_nodup (registry : List (String × Strategy)) :
    ∀ (reqs nd : List String) (d d₁ : List (String × Strategy)),
      add_delegates registry reqs nd d = .ok d₁ →
      (allDelegateInterfaces registry reqs).Nodup ∧
      ∀ i ∈ allDelegateInterfaces registry reqs, i ∉ nd := by
  intro reqs
  induction reqs with
  | nil =>
    intro nd d d₁ _
    exact ⟨List.nodup_nil, by intro i hi; cases hi⟩
  | cons r rest ih =>
    intro nd d d₁ hok
    cases hr : dictGet r registry with
    | none => simp [add_delegates, hr] at hok
    | some strat =>
      simp only [add_delegates, hr] at hok
      cases hinner : addDelegateInterfaces strat strat.interfaces nd d with
      | error e => simp [hinner] at hok
      | ok p =>
        obtain ⟨nd₁, d₂⟩ := p
        simp only [hinner] at hok
        obtain ⟨hnd1, hnodup1, hfresh1⟩ :=
          addDelegateInterfaces_ok strat _ nd d nd₁ d₂ hinner
        obtain ⟨hnodup2, hfresh2⟩ := ih nd₁ d₂ d₁ hok
        subst hnd1
        constructor
        · simp only [allDelegateInterfaces, hr]
          refine List.Nodup.append hnodup1 hnodup2 ?_
          intro a ha hb
          exact (hfresh2 a hb) (List.mem_append.mpr (Or.inl (List.mem_reverse.mpr ha)))
        · intro i hi
          simp only [allDelegateInterfaces, hr] at hi
          rcases List.mem_append.mp hi with hi₁ | hi₁
          · exact hfresh1 i hi₁
          · intro hin
            exact (hfresh2 i hi₁) (List.mem_append.mpr (Or.inr hin))

/-- When every requested delegate id resolves, the delegate phase either
succeeds or fails with the duplicate-delegate error. -/
theorem add_delegates_ok_or_dup (registry : List (String × Strategy)) :
    ∀ (reqs nd : List String) (d : List (String × Strategy)),
      (∀ r ∈ reqs, (dictGet r registry).isSome = true) →
      (∃ d₁, add_delegates registry reqs nd d = .ok d₁) ∨
      isDuplicateDelegateError (add_delegates registry reqs nd d) = true := by
  intro reqs
  induction reqs with
  | nil => intro nd d _; exact Or.inl ⟨d, rfl⟩
  | cons r rest ih =>
    intro nd d hres
    have hr0 : (dictGet r registry).isSome = true := hres r (List.mem_cons_self r rest)
    cases hrg : dictGet r registry with
    | none => rw [hrg] at hr0; cases hr0
    | some strat =>
      rcases addDelegateInterfaces_ok_or_dup strat strat.interfaces nd d with
        ⟨⟨nd₁, d₁⟩, hin⟩ | ⟨i, hin⟩
      · rcases ih nd₁ d₁ (fun x hx => hres x (List.mem_cons_of_mem _ hx)) with
          ⟨d₂, h₂⟩ | h₂
        · exact Or.inl ⟨d₂, by simp [add_delegates, hrg, hin, h₂]⟩
        · refine Or.inr ?_
          simp only [add_delegates, hrg, hin]
          exact h₂
      · refine Or.inr ?_
        simp [add_delegates, hrg, hin, isDuplicateDelegateError]

/-- C5: if the newly requested delegates of one build declare a duplicated
interface the delegate phase — and with it the whole build — fails with the
duplicate-delegate error; delegates inherited from the base are not checked,
so a single new delegate silently replaces a base delegate bound to the same
interface. -/
theorem claim5_duplicate_delegate (registry : List (String × Strategy)) :
    (∀ (reqs : List String) (d₀ : List (String × Strategy)),
        (∀ r ∈ reqs, (dictGet r registry).isSome = true) →
        ¬(allDelegateInterfaces registry reqs).Nodup →
        isDuplicateDelegateError (add_delegates registry reqs [] d₀) = true) ∧
    (∀ (id : String) (reqS reqD : List String) (base : Option StrategyConfiguration)
        (risk : Option Nat) (hidden : Bool) (ic : List (String × String))
        (s₁ : List (String × Strategy)),
        add_strategies registry
            (buildByClass (match base with | some b => b.strategies | none => []) [])
            reqS (match base with | some b => b.strategies | none => []) = .ok s₁ →
        (∀ r ∈ reqD, (dictGet r registry).isSome = true) →
        ¬(allDelegateInterfaces registry reqD).Nodup →
        isDuplicateDelegateError
          (create_strategy_configuration registry id reqS reqD base risk hidden ic) = true) ∧
    (∀ (d₀ : List (String × Strategy)) (r : String) (strat : Strategy) (iface : String),
        dictGet r registry = some strat → strat.interfaces = [iface] →
        add_delegates registry [r] [] d₀ = .ok (dictInsert iface strat d₀) ∧
        dictGet iface (dictInsert iface strat d₀) = some strat) := by
  have hpart1 : ∀ (reqs : List String) (d₀ : List (String × Strategy)),
      (∀ r ∈ reqs, (dictGet r registry).isSome = true) →
      ¬(allDelegateInterfaces registry reqs).Nodup →
      isDuplicateDelegateError (add_delegates registry reqs [] d₀) = true := by
    intro reqs d₀ hres hdup
    rcases add_delegates_ok_or_dup registry reqs [] d₀ hres with ⟨d₁, hok⟩ | hd
    · exact absurd (add_delegates_ok_nodup registry reqs [] d₀ d₁ hok).1 hdup
    · exact hd
  refine ⟨hpart1, ?_, ?_⟩
  · intro id reqS reqD base risk hidden ic s₁ hS hres hdup
    cases base with
    | none =>
      have hd := hpart1 reqD [] hres hdup
      unfold create_strategy_configuration
      dsimp only at hS ⊢
      rw [hS]
      cases hD : add_delegates registry reqD [] [] with
      | error e =>
        rw [hD] at hd
        cases e with
        | duplicateDelegate i => simp [isDuplicateDelegateError]
        | unknownStrategy i => simp [isDuplicateDelegateError] at hd
        | unscoredStrategy i => simp [isDuplicateDelegateError] at hd
      | ok d₁ =>
        rw [hD] at hd
        simp [isDuplicateDelegateError] at hd
    | some b =>
      have hd := hpart1 reqD b.delegates hres hdup
      unfold create_strategy_configuration
      dsimp only at hS ⊢
      rw [hS]
      cases hD : add_delegates registry reqD [] b.delegates with
      | error e =>
        rw [hD] at hd
        cases e with
        | duplicateDelegate i => simp [isDuplicateDelegateError]
        | unknownStrategy i => simp [isDuplicateDelegateError] at hd
        | unscoredStrategy i => simp [isDuplicateDelegateError] at hd
      | ok d₁ =>
        rw [hD] at hd
        simp [isDuplicateDelegateError] at hd
  · intro d₀ r strat iface hr hif
    constructor
    · simp [add_delegates, hr, hif, addDelegateInterfaces]
    · exact dictGet_dictInsert_self iface strat d₀

/-- Witness for C5: requesting `exc:a` and `exc:b`, which both declare the
`exception` interface, fails the build with the duplicate-delegate error;
requesting `exc:a` alone on top of a base delegate for `exception` replaces
it silently. -/
theorem claim5_duplicate_delegate_witness :
    ((∀ r ∈ ["exc:a", "exc:b"], (dictGet r registryDelegates).isSome = true) ∧
     ¬(allDelegateInterfaces registryDelegates ["exc:a", "exc:b"]).Nodup ∧
     isDuplicateDelegateError (add_delegates registryDelegates ["exc:a", "exc:b"] [] []) = true ∧
     isDuplicateDelegateError
       (create_strategy_configuration registryDelegates "cfg" [] ["exc:a", "exc:b"] none
         none false []) = true) ∧
    (dictGet "exc:a" registryDelegates = some delegateExcA ∧
     add_delegates registryDelegates ["exc:a"] [] [("exception", delegateExcOld)] =
       .ok (dictInsert "exception" delegateExcA [("exception", delegateExcOld)]) ∧
     dictGet "exception" (dictInsert "exception" delegateExcA [("exception", delegateExcOld)]) =
       some delegateExcA) :=
  ⟨⟨by decide, by decide,
    (claim5_duplicate_delegate registryDelegates).1 ["exc:a", "exc:b"] [] (by decide) (by decide),
    (claim5_duplicate_delegate registryDelegates).2.1 "cfg" [] ["exc:a", "exc:b"] none none
      false [] [] (by decide) (by decide) (by decide)⟩,
   ⟨by decide,
    ((claim5_duplicate_delegate registryDelegates).2.2 [("exception", delegateExcOld)] "exc:a"
        delegateExcA "exception" (by decide) (by decide)).1,
    ((claim5_duplicate_delegate registryDelegates).2.2 [("exception", delegateExcOld)] "exc:a"
        delegateExcA "exception" (by decide) (by decide)).2⟩⟩

theorem dictGet_mem {α : Type} (k : String) (v : α) :
    ∀ d : List (String × α), dictGet k d = some v → (k, v) ∈ d := by
  intro d
  induction d with
  | nil => intro h; cases h
  | cons p rest ih =>
    obtain ⟨k₁, v₁⟩ := p
    intro h
    by_cases hk : k₁ = k
    · simp only [dictGet, if_pos hk, Option.some.injEq] at h
      subst hk
      subst h
      exact List.mem_cons_self _ _
    · simp only [dictGet, if_neg hk] at h
      exact List.mem_cons_of_mem _ (ih h)

theorem mem_dictPop_of_ne {α : Type} (k : String) (p : String × α) :
    ∀ d : List (String × α), p ∈ d → p.1 ≠ k → p ∈ dictPop k d := by
  intro d
  induction d with
  | nil => intro h _; cases h
  | cons q rest ih =>
    obtain ⟨k₁, v₁⟩ := q
    intro hp hne
    by_cases hk : k₁ = k
    · simp only [dictPop, if_pos hk]
      rcases List.mem_cons.mp hp with rfl | hp₁
      · exact absurd hk hne
      · exact hp₁
    · simp only [dictPop, if_neg hk]
      rcases List.mem_cons.mp hp with rfl | hp₁
      · exact List.mem_cons_self _ _
      · exact List.mem_cons_of_mem _ (ih hp₁ hne)

theorem mem_dictInsert_of_ne {α : Type} (k : String) (v : α) (p : String × α) :
    ∀ d : List (String × α), p ∈ d → p.1 ≠ k → p ∈ dictInsert k v d := by
  intro d
  induction d with
  | nil => intro h _; cases h
  | cons q rest ih =>
    obtain ⟨k₁, v₁⟩ := q
    intro hp hne
    by_cases hk : k₁ = k
    · simp only [dictInsert, if_pos hk]
      rcases List.mem_cons.mp hp with rfl | hp₁
      · exact absurd hk hne
      · exact List.mem_cons_of_mem _ hp₁
    · simp only [dictInsert, if_neg hk]
      rcases List.mem_cons.mp hp with rfl | hp₁
      · exact List.mem_cons_self _ _
      · exact List.mem_cons_of_mem _ (ih hp₁ hne)

theorem mem_dictKeys_dictInsert {α : Type} (k : String) (v : α) (x : String) :
    ∀ d : List (String × α), x ∈ dictKeys (dictInsert k v d) → x = k ∨ x ∈ dictKeys d := by
  intro d
  induction d with
  | nil =>
    intro h
    simp [dictInsert, dictKeys] at h
    exact Or.inl h
  | cons q rest ih =>
    obtain ⟨k₁, v₁⟩ := q
    intro h
    by_cases hk : k₁ = k
    · simp only [dictInsert, if_pos hk, dictKeys, List.map_cons] at h
      rcases List.mem_cons.mp h with rfl | h₁
      · exact Or.inl rfl
      · exact Or.inr (List.mem_cons_of_mem _ h₁)
    · simp only [dictInsert, if_neg hk, dictKeys, List.map_cons] at h
      rcases List.mem_cons.mp h with rfl | h₁
      · exact Or.inr (List.mem_cons_self _ _)
      · rcases ih h₁ with h₂ | h₂
        · exact Or.inl h₂
        · exact Or.inr (List.mem_cons_of_mem _ h₂)

theorem dictKeys_nodup_dictInsert {α : Type} (k : String) (v : α) :
    ∀ d : List (String × α), (dictKeys d).Nodup → (dictKeys (dictInsert k v d)).Nodup := by
  intro d
  induction d with
  | nil => intro _; simp [dictInsert, dictKeys]
  | cons q rest ih =>
    obtain ⟨k₁, v₁⟩ := q
    intro h
    simp only [dictKeys, List.map_cons, List.nodup_cons] at h
    obtain ⟨hk₁, hrest⟩ := h
    by_cases hk : k₁ = k
    · subst hk
      simp only [dictInsert, if_pos rfl, dictKeys, List.map_cons, List.nodup_cons, ite_true]
      exact ⟨hk₁, hrest⟩
    · simp only [dictInsert, if_neg hk, dictKeys, List.map_cons, List.nodup_cons]
      refine ⟨?_, ih hrest⟩
      intro hmem
      rcases mem_dictKeys_dictInsert k v k₁ rest hmem with rfl | h₂
      · exact hk rfl
      · exact hk₁ h₂

theorem dictPop_sublist {α : Type} (k : String) :
    ∀ d : List (String × α), List.Sublist (dictPop k d) d := by
  intro d
  induction d with
  | nil => exact List.Sublist.refl []
  | cons q rest ih =>
    obtain ⟨k₁, v₁⟩ := q
    by_cases hk : k₁ = k
    · simp only [dictPop, if_pos hk]
      exact List.sublist_cons_self _ _
    · simp only [dictPop, if_neg hk]
      exact List.Sublist.cons₂ _ ih

theorem dictPop_eq_filter {α : Type} (k : String) :
    ∀ d : List (String × α), (dictKeys d).Nodup →
      dictPop k d = d.filter (fun p => decide (p.1 ≠ k)) := by
  intro d
  induction d with
  | nil => intro _; rfl
  | cons q rest ih =>
    obtain ⟨k₁, v₁⟩ := q
    intro h
    simp only [dictKeys, List.map_cons, List.nodup_cons] at h
    obtain ⟨hk₁, hrest⟩ := h
    by_cases hk : k₁ = k
    · have hself : rest.filter (fun p => !decide (p.1 = k)) = rest := by
        refine List.filter_eq_self.mpr ?_
        intro p hp
        have hne : p.1 ≠ k := by
          intro he
          refine hk₁ ?_
          rw [hk]
          exact he ▸ List.mem_map.mpr ⟨p, hp, rfl⟩
        simpa using hne
      simp [dictPop, hk, hself]
    · simp [dictPop, hk, ih hrest]

theorem foldl_dictPop_eq_filter {α : Type} :
    ∀ (ids : List String) (d : List (String × α)), (dictKeys d).Nodup →
      ids.foldl (fun acc i => dictPop i acc) d = d.filter (fun p => decide (p.1 ∉ ids)) := by
  intro ids
  induction ids with
  | nil =>
    intro d _
    simp
  | cons i rest ih =>
    intro d hnodup
    simp only [List.foldl_cons]
    have hpop := dictPop_eq_filter i d hnodup
    have hnodup₁ : (dictKeys (dictPop i d)).Nodup :=
      List.Nodup.sublist (List.Sublist.map _ (dictPop_sublist i d)) hnodup
    rw [ih (dictPop i d) hnodup₁, hpop, List.filter_filter]
    refine List.filter_congr ?_
    intro p hp
    rcases Decidable.em (p.1 = i) with he | hne
    · simp [he]
    · simp [hne]

theorem dictInsert_of_not_mem_keys {α : Type} (k : String) (v : α) :
    ∀ d : List (String × α), k ∉ dictKeys d → dictInsert k v d = d ++ [(k, v)] := by
  intro d
  induction d with
  | nil => intro _; rfl
  | cons q rest ih =>
    obtain ⟨k₁, v₁⟩ := q
    intro h
    simp only [dictKeys, List.map_cons, List.mem_cons] at h
    push_neg at h
    obtain ⟨hne, hrest⟩ := h
    have hk : ¬k₁ = k := fun he => hne he.symm
    simp only [dictInsert, if_neg hk, List.cons_append]
    rw [ih hrest]

theorem evictClass_eq_filter (byClass : List (String × List String)) (c : String)
    (s : List (String × Strategy)) (hnodup : (dictKeys s).Nodup)
    (hcov : ∀ p ∈ s, strategyClassOf p.1 = c → p.1 ∈ bucketOf byClass c)
    (hbc : ∀ i ∈ bucketOf byClass c, strategyClassOf i = c) :
    evictClass byClass c s = s.filter (fun p => decide (strategyClassOf p.1 ≠ c)) := by
  unfold evictClass
  rw [foldl_dictPop_eq_filter (bucketOf byClass c) s hnodup]
  refine List.filter_congr ?_
  intro p hp
  rw [decide_eq_decide]
  constructor
  · intro hnb hc
    exact hnb (hcov p hp hc)
  · intro hnc hb
    exact hnc (hbc p.1 hb)

theorem bucketOf_setdefaultAppend_same (cls i : String) :
    ∀ acc : List (String × List String),
      bucketOf (setdefaultAppend cls i acc) cls = bucketOf acc cls ++ [i] := by
  intro acc
  induction acc with
  | nil => simp [setdefaultAppend, bucketOf, dictGet]
  | cons q rest ih =>
    obtain ⟨k₁, vs⟩ := q
    by_cases hk : k₁ = cls
    · simp [setdefaultAppend, bucketOf, dictGet, hk]
    · simpa [setdefaultAppend, bucketOf, dictGet, hk] using ih

theorem bucketOf_setdefaultAppend_ne (cls i c : String) (hne : ¬cls = c) :
    ∀ acc : List (String × List String),
      bucketOf (setdefaultAppend cls i acc) c = bucketOf acc c := by
  intro acc
  induction acc with
  | nil => simp [setdefaultAppend, bucketOf, dictGet, hne]
  | cons q rest ih =>
    obtain ⟨k₁, vs⟩ := q
    by_cases hk : k₁ = cls
    · subst hk
      simp [setdefaultAppend, bucketOf, dictGet, hne]
    · by_cases hc : k₁ = c
      · subst hc
        have hcc : ¬k₁ = cls := hk
        simp [setdefaultAppend, bucketOf, dictGet, hcc]
      · simpa [setdefaultAppend, bucketOf, dictGet, hk, hc] using ih

theorem bucketOf_buildByClass (c : String) :
    ∀ (bs : List (String × Strategy)) (acc : List (String × List String)),
      bucketOf (buildByClass bs acc) c =
        bucketOf acc c ++
          (bs.filter (fun p => decide (p.2.strategyClass = c))).map (fun p => p.2.id) := by
  intro bs
  induction bs with
  | nil => intro acc; simp [buildByClass]
  | cons p rest ih =>
    intro acc
    simp only [buildByClass]
    rw [ih]
    by_cases hc : p.2.strategyClass = c
    · rw [hc, bucketOf_setdefaultAppend_same]
      simp [List.filter_cons, hc]
    · rw [bucketOf_setdefaultAppend_ne _ _ _ hc]
      simp [List.filter_cons, hc]

/-- Every id in a bucket of the inherited-strategies table belongs to that
bucket's class. -/
theorem bucketOf_class (bs : List (String × Strategy)) (c : String) :
    ∀ i ∈ bucketOf (buildByClass bs []) c, strategyClassOf i = c := by
  intro i hi
  rw [bucketOf_buildByClass] at hi
  simp only [bucketOf, dictGet, Option.getD_none, List.nil_append] at hi
  obtain ⟨p, hp, hpid⟩ := List.mem_map.mp hi
  have hf := (List.mem_filter.mp hp).2
  rw [decide_eq_true_eq] at hf
  rw [← hpid, ← hf]
  rfl

/-- Every inherited key is listed in its own class's bucket. -/
theorem mem_bucketOf_of_key (bs : List (String × Strategy))
    (hwf : ∀ p ∈ bs, p.2.id = p.1) (k : String) (hk : k ∈ dictKeys bs) (c : String)
    (hc : strategyClassOf k = c) : k ∈ bucketOf (buildByClass bs []) c := by
  rw [bucketOf_buildByClass]
  obtain ⟨p, hp, hpk⟩ := List.mem_map.mp hk
  refine List.mem_append.mpr (Or.inr ?_)
  refine List.mem_map.mpr ⟨p, List.mem_filter.mpr ⟨hp, ?_⟩, by rw [hwf p hp, hpk]⟩
  rw [decide_eq_true_eq, Strategy.strategyClass, hwf p hp, hpk, hc]

/-- Characterization of the strategy loop: when all requested ids resolve to
scored strategies and their classes are pairwise distinct, the result is the
inherited entries whose class is not re-specified (in inherited order)
followed by the requested strategies (in request order). -/
theorem add_strategies_characterization (registry : List (String × Strategy))
    (hreg : ∀ p ∈ registry, p.2.id = p.1)
    (byClass : List (String × List String))
    (hbc : ∀ c : String, ∀ i ∈ bucketOf byClass c, strategyClassOf i = c) :
    ∀ (reqs : List String) (s : List (String × Strategy)),
      (∀ r ∈ reqs, ((dictGet r registry).bind (fun strat => strat.score)).isSome = true) →
      (reqs.map strategyClassOf).Nodup →
      (dictKeys s).Nodup →
      (∀ p ∈ s, ∀ r ∈ reqs, strategyClassOf p.1 = strategyClassOf r →
          p.1 ∈ bucketOf byClass (strategyClassOf p.1)) →
      add_strategies registry byClass reqs s =
        .ok ((s.filter (fun p => decide (strategyClassOf p.1 ∉ reqs.map strategyClassOf))) ++
          reqs.filterMap (fun r => (dictGet r registry).map (fun strat => (r, strat)))) := by
  intro reqs
  induction reqs with
  | nil =>
    intro s _ _ _ _
    simp [add_strategies]
  | cons r rest ih =>
    intro s hres hcls hkeys hcov
    have hr0 := hres r (List.mem_cons_self r rest)
    cases hrg : dictGet r registry with
    | none => rw [hrg] at hr0; cases hr0
    | some strat =>
      have hid : strat.id = r := hreg (r, strat) (dictGet_mem r strat registry hrg)
      have hsc : ¬strat.score = none := by
        intro he
        rw [hrg] at hr0
        simp [he] at hr0
      have hclsr : strat.strategyClass = strategyClassOf r := by
        rw [Strategy.strategyClass, hid]
      have hcls' : (strategyClassOf r :: rest.map strategyClassOf).Nodup := by
        simpa using hcls
      have hhead : strategyClassOf r ∉ rest.map strategyClassOf :=
        (List.nodup_cons.mp hcls').1
      have hclsrest : (rest.map strategyClassOf).Nodup := (List.nodup_cons.mp hcls').2
      have hevict : evictClass byClass strat.strategyClass s =
          s.filter (fun p => decide (strategyClassOf p.1 ≠ strategyClassOf r)) := by
        rw [hclsr]
        refine evictClass_eq_filter byClass _ s hkeys ?_ (hbc _)
        intro p hp hpc
        have hb := hcov p hp r (List.mem_cons_self r rest) hpc
        rwa [hpc] at hb
      have hfresh : r ∉ dictKeys
          (s.filter (fun p => decide (strategyClassOf p.1 ≠ strategyClassOf r))) := by
        intro hmem
        obtain ⟨p, hp, hpk⟩ := List.mem_map.mp hmem
        have hf := (List.mem_filter.mp hp).2
        rw [decide_eq_true_eq, hpk] at hf
        exact hf rfl
      have hins : dictInsert r strat
            (s.filter (fun p => decide (strategyClassOf p.1 ≠ strategyClassOf r))) =
          s.filter (fun p => decide (strategyClassOf p.1 ≠ strategyClassOf r)) ++ [(r, strat)] :=
        dictInsert_of_not_mem_keys r strat _ hfresh
      have hkeys' : (dictKeys
          (s.filter (fun p => decide (strategyClassOf p.1 ≠ strategyClassOf r)) ++
            [(r, strat)])).Nodup := by
        simp only [dictKeys, List.map_append, List.map_cons, List.map_nil]
        refine List.Nodup.append ?_ (List.nodup_singleton r) ?_
        · exact List.Nodup.sublist (List.Sublist.map _ (List.filter_sublist s)) hkeys
        · intro a ha hb
          rcases List.mem_singleton.mp hb with rfl
          exact hfresh ha
      have hcov' : ∀ p ∈ s.filter (fun p => decide (strategyClassOf p.1 ≠ strategyClassOf r)) ++
            [(r, strat)], ∀ r' ∈ rest, strategyClassOf p.1 = strategyClassOf r' →
            p.1 ∈ bucketOf byClass (strategyClassOf p.1) := by
        intro p hp r' hr' hpc
        rcases List.mem_append.mp hp with hp₁ | hp₁
        · exact hcov p ((List.mem_filter.mp hp₁).1) r' (List.mem_cons_of_mem _ hr') hpc
        · rcases List.mem_singleton.mp hp₁ with rfl
          exact absurd (hpc ▸ List.mem_map.mpr ⟨r', hr', rfl⟩) hhead
      have hres' : ∀ r' ∈ rest,
          ((dictGet r' registry).bind (fun strat => strat.score)).isSome = true :=
        fun r' hr' => hres r' (List.mem_cons_of_mem _ hr')
      simp only [add_strategies, hrg, if_neg hsc]
      rw [hevict, hins, ih _ hres' hclsrest hkeys' hcov']
      simp only [List.filter_append, List.filter_filter, List.filterMap_cons, hrg,
        Option.map_some, List.map_cons]
      have hdt : decide (strategyClassOf r ∉ rest.map strategyClassOf) = true :=
        decide_eq_true hhead
      have hsingle : List.filter
          (fun p => decide (strategyClassOf p.1 ∉ rest.map strategyClassOf))
          [((r, strat) : String × Strategy)] = [(r, strat)] := by
        simp only [List.filter_cons, hdt, if_pos, ite_true, List.filter_nil]
      rw [hsingle]
      have hmerge : ∀ p : String × Strategy,
          ((fun p => decide (strategyClassOf p.1 ∉ rest.map strategyClassOf)) p &&
            (fun p => decide (strategyClassOf p.1 ≠ strategyClassOf r)) p) =
          (fun p => decide
            (strategyClassOf p.1 ∉ strategyClassOf r :: rest.map strategyClassOf)) p := by
        intro p
        by_cases h1 : strategyClassOf p.1 = strategyClassOf r
        · simp [h1]
        · by_cases h2 : strategyClassOf p.1 ∈ rest.map strategyClassOf
          · simp [h1, h2]
          · simp [h1, h2]
      rw [List.filter_congr (fun p _ => hmerge p)]
      simp [List.append_assoc]

/-- Mapping the key's strategy class over the resolved requested entries
gives back the requested classes. -/
theorem filterMap_resolve_map_class (registry : List (String × Strategy)) :
    ∀ reqs : List String,
      (∀ r ∈ reqs, (dictGet r registry).isSome = true) →
      (reqs.filterMap (fun r => (dictGet r registry).map (fun strat => (r, strat)))).map
        (fun p => strategyClassOf p.1) = reqs.map strategyClassOf := by
  intro reqs
  induction reqs with
  | nil => intro _; rfl
  | cons r rest ih =>
    intro hres
    have hr := hres r (List.mem_cons_self r rest)
    cases hrg : dictGet r registry with
    | none => rw [hrg] at hr; cases hr
    | some strat =>
      have htail := ih (fun x hx => hres x (List.mem_cons_of_mem _ hx))
      simp [List.filterMap_cons, hrg, htail]

/-- C2 (amended): a newly requested strategy evicts the inherited entries of
its class, but strategies requested within the same build call are not
checked against each other; provided the requested ids have pairwise
distinct classes and the base itself holds no duplicate class, no two
strategies of the built configuration share a strategy class. -/
theorem claim2_amended_no_duplicate_classes (registry : List (String × Strategy))
    (hreg : ∀ p ∈ registry, p.2.id = p.1)
    (id : String) (reqS reqD : List String) (b : StrategyConfiguration)
    (risk : Option Nat) (hidden : Bool) (ic : List (String × String))
    (cfg : StrategyConfiguration)
    (hbwf : ∀ p ∈ b.strategies, p.2.id = p.1)
    (hbkeys : (dictKeys b.strategies).Nodup)
    (hbcls : (b.strategies.map (fun p => strategyClassOf p.1)).Nodup)
    (hres : ∀ r ∈ reqS, ((dictGet r registry).bind (fun strat => strat.score)).isSome = true)
    (hcls : (reqS.map strategyClassOf).Nodup)
    (hok : create_strategy_configuration registry id reqS reqD (some b) risk hidden ic =
      .ok cfg) :
    (cfg.strategies.map (fun p => strategyClassOf p.1)).Nodup := by
  have hbc : ∀ c : String, ∀ i ∈ bucketOf (buildByClass b.strategies []) c,
      strategyClassOf i = c := fun c => bucketOf_class b.strategies c
  have hcov : ∀ p ∈ b.strategies, ∀ r ∈ reqS, strategyClassOf p.1 = strategyClassOf r →
      p.1 ∈ bucketOf (buildByClass b.strategies []) (strategyClassOf p.1) := by
    intro p hp r hr hpc
    exact mem_bucketOf_of_key b.strategies hbwf p.1 (List.mem_map.mpr ⟨p, hp, rfl⟩) _ rfl
  have hchar := add_strategies_characterization registry hreg _ hbc reqS b.strategies hres
    hcls hbkeys hcov
  have hressome : ∀ r ∈ reqS, (dictGet r registry).isSome = true := by
    intro r hr
    have h := hres r hr
    cases hrg : dictGet r registry with
    | none => rw [hrg] at h; simp at h
    | some strat => simp
  unfold create_strategy_configuration at hok
  dsimp only at hok
  rw [hchar] at hok
  cases hD : add_delegates registry reqD [] b.delegates with
  | error e =>
    rw [hD] at hok
    simp at hok
  | ok d₁ =>
    rw [hD] at hok
    simp only [Except.ok.injEq] at hok
    subst hok
    simp only [List.map_append]
    refine List.Nodup.append ?_ ?_ ?_
    · exact List.Nodup.sublist (List.Sublist.map _ (List.filter_sublist b.strategies)) hbcls
    · rw [filterMap_resolve_map_class registry reqS hressome]
      exact hcls
    · intro a ha hb
      rw [filterMap_resolve_map_class registry reqS hressome] at hb
      obtain ⟨p, hp, hpa⟩ := List.mem_map.mp ha
      have hf := (List.mem_filter.mp hp).2
      rw [decide_eq_true_eq] at hf
      rw [← hpa] at hb
      exact hf hb

/-- Witness for the amended C2: building on a base holding class `bar` with
the single requested strategy `foo:a` yields distinct classes. -/
theorem claim2_amended_no_duplicate_classes_witness :
    ((∀ p ∈ registryFoo, p.2.id = p.1) ∧
     (∀ p ∈ baseBarConfig.strategies, p.2.id = p.1) ∧
     (dictKeys baseBarConfig.strategies).Nodup ∧
     (baseBarConfig.strategies.map (fun p => strategyClassOf p.1)).Nodup ∧
     (∀ r ∈ ["foo:a"],
       ((dictGet r registryFoo).bind (fun strat => strat.score)).isSome = true) ∧
     ((["foo:a"] : List String).map strategyClassOf).Nodup ∧
     create_strategy_configuration registryFoo "derived" ["foo:a"] [] (some baseBarConfig)
         none false [] =
       .ok { id := "derived", strategies := [("bar:x", stratBarX), ("foo:a", stratFooA)],
             delegates := [], initial_context := [], risk := 0, hidden := false }) ∧
    (({ id := "derived", strategies := [("bar:x", stratBarX), ("foo:a", stratFooA)],
        delegates := [], initial_context := [], risk := 0,
        hidden := false : StrategyConfiguration }).strategies.map
      (fun p => strategyClassOf p.1)).Nodup :=
  ⟨⟨by decide, by decide, by decide, by decide, by decide, by decide, by decide⟩,
   claim2_amended_no_duplicate_classes registryFoo (by decide) "derived" ["foo:a"] []
     baseBarConfig none false []
     { id := "derived", strategies := [("bar:x", stratBarX), ("foo:a", stratFooA)],
       delegates := [], initial_context := [], risk := 0, hidden := false }
     (by decide) (by decide) (by decide) (by decide) (by decide) (by decide)⟩

theorem classFilter_dictPop (c i : String) (hic : ¬strategyClassOf i = c) :
    ∀ d : List (String × Strategy),
      (dictPop i d).filter (fun p => decide (strategyClassOf p.1 = c)) =
        d.filter (fun p => decide (strategyClassOf p.1 = c)) := by
  intro d
  induction d with
  | nil => rfl
  | cons q rest ih =>
    obtain ⟨k₁, v₁⟩ := q
    by_cases hk : k₁ = i
    · subst hk
      simp only [dictPop, if_pos rfl, ite_true]
      rw [List.filter_cons]
      have hd : decide (strategyClassOf k₁ = c) = false := by simpa using hic
      simp [hd]
    · simp only [dictPop, if_neg hk]
      simp [List.filter_cons, ih]

theorem classFilter_foldl_dictPop (c : String) :
    ∀ ids : List String, (∀ i ∈ ids, ¬strategyClassOf i = c) →
      ∀ d : List (String × Strategy),
        (ids.foldl (fun acc i => dictPop i acc) d).filter
            (fun p => decide (strategyClassOf p.1 = c)) =
          d.filter (fun p => decide (strategyClassOf p.1 = c)) := by
  intro ids
  induction ids with
  | nil => intro _ d; rfl
  | cons i rest ih =>
    intro h d
    simp only [List.foldl_cons]
    rw [ih (fun x hx => h x (List.mem_cons_of_mem _ hx)) (dictPop i d),
      classFilter_dictPop c i (h i (List.mem_cons_self i rest)) d]

theorem classFilter_dictInsert (c k : String) (v : Strategy) (hkc : ¬strategyClassOf k = c) :
    ∀ d : List (String × Strategy),
      (dictInsert k v d).filter (fun p => decide (strategyClassOf p.1 = c)) =
        d.filter (fun p => decide (strategyClassOf p.1 = c)) := by
  intro d
  induction d with
  | nil => simp [dictInsert, hkc]
  | cons q rest ih =>
    obtain ⟨k₁, v₁⟩ := q
    by_cases hk : k₁ = k
    · subst hk
      simp only [dictInsert, if_pos rfl, ite_true]
      have hd : decide (strategyClassOf k₁ = c) = false := by simpa using hkc
      simp [List.filter_cons, hd]
    · simp only [dictInsert, if_neg hk]
      simp [List.filter_cons, ih]

/-- When no request has class `c`, the strategy loop preserves the class-`c`
entries exactly. -/
theorem add_strategies_classFilter_const (registry : List (String × Strategy))
    (hreg : ∀ p ∈ registry, p.2.id = p.1)
    (byClass : List (String × List String))
    (hbc : ∀ c₁ : String, ∀ i ∈ bucketOf byClass c₁, strategyClassOf i = c₁)
    (c : String) :
    ∀ (reqs : List String) (s out : List (String × Strategy)),
      (∀ r ∈ reqs, ¬strategyClassOf r = c) →
      add_strategies registry byClass reqs s = .ok out →
      out.filter (fun p => decide (strategyClassOf p.1 = c)) =
        s.filter (fun p => decide (strategyClassOf p.1 = c)) := by
  intro reqs
  induction reqs with
  | nil =>
    intro s out _ hok
    cases hok
    rfl
  | cons r rest ih =>
    intro s out h hok
    cases hrg : dictGet r registry with
    | none => simp [add_strategies, hrg] at hok
    | some strat =>
      by_cases hscn : strat.score = none
      · simp [add_strategies, hrg, hscn] at hok
      · simp only [add_strategies, hrg, if_neg hscn] at hok
        have hid : strat.id = r := hreg (r, strat) (dictGet_mem r strat registry hrg)
        have hrc : ¬strategyClassOf r = c := h r (List.mem_cons_self r rest)
        have hstep := ih _ out (fun x hx => h x (List.mem_cons_of_mem _ hx)) hok
        rw [hstep, classFilter_dictInsert c r strat hrc]
        unfold evictClass
        refine classFilter_foldl_dictPop c _ ?_ s
        intro i hi
        have := hbc strat.strategyClass i hi
        rw [this, Strategy.strategyClass, hid]
        exact hrc

theorem foldl_dictPop_sublist {α : Type} :
    ∀ (ids : List String) (d : List (String × α)),
      List.Sublist (ids.foldl (fun acc i => dictPop i acc) d) d := by
  intro ids
  induction ids with
  | nil => intro d; exact List.Sublist.refl d
  | cons i rest ih =>
    intro d
    simp only [List.foldl_cons]
    exact List.Sublist.trans (ih (dictPop i d)) (dictPop_sublist i d)

theorem add_strategies_keys_nodup (registry : List (String × Strategy))
    (byClass : List (String × List String)) :
    ∀ (reqs : List String) (s out : List (String × Strategy)),
      add_strategies registry byClass reqs s = .ok out →
      (dictKeys s).Nodup → (dictKeys out).Nodup := by
  intro reqs
  induction reqs with
  | nil =>
    intro s out hok h
    cases hok
    exact h
  | cons r rest ih =>
    intro s out hok h
    cases hrg : dictGet r registry with
    | none => simp [add_strategies, hrg] at hok
    | some strat =>
      by_cases hscn : strat.score = none
      · simp [add_strategies, hrg, hscn] at hok
      · simp only [add_strategies, hrg, if_neg hscn] at hok
        refine ih _ out hok ?_
        refine dictKeys_nodup_dictInsert r strat _ ?_
        exact List.Nodup.sublist
          (List.Sublist.map _ (foldl_dictPop_sublist (bucketOf byClass strat.strategyClass) s)) h

theorem mem_foldl_dictPop (p : String × Strategy) :
    ∀ (ids : List String) (d : List (String × Strategy)),
      p ∈ d → (∀ i ∈ ids, p.1 ≠ i) →
      p ∈ ids.foldl (fun acc i => dictPop i acc) d := by
  intro ids
  induction ids with
  | nil => intro d hp _; exact hp
  | cons i rest ih =>
    intro d hp h
    simp only [List.foldl_cons]
    refine ih (dictPop i d) ?_ (fun x hx => h x (List.mem_cons_of_mem _ hx))
    exact mem_dictPop_of_ne i p d hp (h i (List.mem_cons_self i rest))

/-- Inherited entries whose class is never re-specified survive the strategy
loop unmodified. -/
theorem add_strategies_preserves_entry (registry : List (String × Strategy))
    (hreg : ∀ p ∈ registry, p.2.id = p.1)
    (byClass : List (String × List String))
    (hbc : ∀ c₁ : String, ∀ i ∈ bucketOf byClass c₁, strategyClassOf i = c₁) :
    ∀ (reqs : List String) (s out : List (String × Strategy)) (p : String × Strategy),
      add_strategies registry byClass reqs s = .ok out →
      p ∈ s →
      (∀ r ∈ reqs, ¬strategyClassOf p.1 = strategyClassOf r) →
      p ∈ out := by
  intro reqs
  induction reqs with
  | nil =>
    intro s out p hok hp _
    cases hok
    exact hp
  | cons r rest ih =>
    intro s out p hok hp h
    cases hrg : dictGet r registry with
    | none => simp [add_strategies, hrg] at hok
    | some strat =>
      by_cases hscn : strat.score = none
      · simp [add_strategies, hrg, hscn] at hok
      · simp only [add_strategies, hrg, if_neg hscn] at hok
        have hid : strat.id = r := hreg (r, strat) (dictGet_mem r strat registry hrg)
        have hpr : ¬strategyClassOf p.1 = strategyClassOf r := h r (List.mem_cons_self r rest)
        refine ih _ out p hok ?_ (fun x hx => h x (List.mem_cons_of_mem _ hx))
        refine mem_dictInsert_of_ne r strat p _ ?_ ?_
        · unfold evictClass
          refine mem_foldl_dictPop p _ s hp ?_
          intro i hi
          intro he
          refine hpr ?_
          have hcls := hbc strat.strategyClass i hi
          rw [← he, Strategy.strategyClass, hid] at hcls
          exact hcls
        · intro he
          exact hpr (by rw [he])

theorem add_strategies_append_ok (registry : List (String × Strategy))
    (byClass : List (String × List String)) :
    ∀ (l₁ l₂ : List String) (s out : List (String × Strategy)),
      add_strategies registry byClass (l₁ ++ l₂) s = .ok out →
      ∃ s₁, add_strategies registry byClass l₁ s = .ok s₁ ∧
        add_strategies registry byClass l₂ s₁ = .ok out := by
  intro l₁
  induction l₁ with
  | nil =>
    intro l₂ s out hok
    exact ⟨s, rfl, hok⟩
  | cons r rest ih =>
    intro l₂ s out hok
    cases hrg : dictGet r registry with
    | none => simp [add_strategies, hrg] at hok
    | some strat =>
      by_cases hscn : strat.score = none
      · simp [add_strategies, hrg, hscn] at hok
      · simp only [List.cons_append, add_strategies, hrg, if_neg hscn] at hok
        obtain ⟨s₁, h1, h2⟩ := ih l₂ _ out hok
        refine ⟨s₁, ?_, h2⟩
        simp only [add_strategies, hrg, if_neg hscn]
        exact h1

/-- When exactly one request (`r`, surrounded by `pre` and `post` of other
classes) has class `c`, the built strategy dict holds exactly one class-`c`
entry: the one requested. -/
theorem add_strategies_single_class (registry : List (String × Strategy))
    (hreg : ∀ p ∈ registry, p.2.id = p.1)
    (byClass : List (String × List String))
    (hbc : ∀ c₁ : String, ∀ i ∈ bucketOf byClass c₁, strategyClassOf i = c₁)
    (c : String) (pre post : List String) (r : String) (strat : Strategy)
    (hrc : strategyClassOf r = c)
    (hpre : ∀ x ∈ pre, ¬strategyClassOf x = c)
    (hpost : ∀ x ∈ post, ¬strategyClassOf x = c)
    (hrg : dictGet r registry = some strat) :
    ∀ (s out : List (String × Strategy)),
      (dictKeys s).Nodup →
      (∀ p ∈ s, strategyClassOf p.1 = c → p.1 ∈ bucketOf byClass c) →
      add_strategies registry byClass (pre ++ r :: post) s = .ok out →
      out.filter (fun p => decide (strategyClassOf p.1 = c)) = [(r, strat)] := by
  intro s out hkeys hcov hok
  obtain ⟨s₁, hpre_run, hrpost⟩ := add_strategies_append_ok registry byClass pre (r :: post)
    s out hok
  have hkeys₁ : (dictKeys s₁).Nodup :=
    add_strategies_keys_nodup registry byClass pre s s₁ hpre_run hkeys
  have hfilter₁ : s₁.filter (fun p => decide (strategyClassOf p.1 = c)) =
      s.filter (fun p => decide (strategyClassOf p.1 = c)) :=
    add_strategies_classFilter_const registry hreg byClass hbc c pre s s₁ hpre hpre_run
  have hcov₁ : ∀ p ∈ s₁, strategyClassOf p.1 = c → p.1 ∈ bucketOf byClass c := by
    intro p hp hc
    have hpf : p ∈ s.filter (fun p => decide (strategyClassOf p.1 = c)) := by
      rw [← hfilter₁]
      exact List.mem_filter.mpr ⟨hp, decide_eq_true hc⟩
    exact hcov p ((List.mem_filter.mp hpf).1) hc
  by_cases hscn : strat.score = none
  · simp [add_strategies, hrg, hscn] at hrpost
  · simp only [add_strategies, hrg, if_neg hscn] at hrpost
    have hid : strat.id = r := hreg (r, strat) (dictGet_mem r strat registry hrg)
    have hclsr : strat.strategyClass = c := by
      rw [Strategy.strategyClass, hid, hrc]
    have hevict : evictClass byClass strat.strategyClass s₁ =
        s₁.filter (fun p => decide (strategyClassOf p.1 ≠ c)) := by
      rw [hclsr]
      exact evictClass_eq_filter byClass c s₁ hkeys₁ hcov₁ (hbc c)
    have hfresh : r ∉ dictKeys (s₁.filter (fun p => decide (strategyClassOf p.1 ≠ c))) := by
      intro hmem
      obtain ⟨p, hp, hpk⟩ := List.mem_map.mp hmem
      have hf := (List.mem_filter.mp hp).2
      rw [decide_eq_true_eq, hpk, hrc] at hf
      exact hf rfl
    rw [hevict, dictInsert_of_not_mem_keys r strat _ hfresh] at hrpost
    have hfinal := add_strategies_classFilter_const registry hreg byClass hbc c post _ out
      hpost hrpost
    rw [hfinal, List.filter_append]
    have hnil : (s₁.filter (fun p => decide (strategyClassOf p.1 ≠ c))).filter
        (fun p => decide (strategyClassOf p.1 = c)) = [] := by
      rw [List.filter_filter]
      refine List.filter_eq_nil_iff.mpr ?_
      intro p hp
      by_cases hc : strategyClassOf p.1 = c
      · simp [hc]
      · simp [hc]
    rw [hnil]
    simp [List.filter_cons, hrc]

/-- C4 (amended): every inherited strategy whose class is not re-specified in
the build's own strategy list is present unmodified in the result; and when
the build's list names a class exactly once, the result holds exactly one
entry of that class — the requested one (two requests of the same class
would both remain, as the counterexample shows). -/
theorem claim4_amended_base_override (registry : List (String × Strategy))
    (hreg : ∀ p ∈ registry, p.2.id = p.1)
    (id : String) (reqS reqD : List String) (b : StrategyConfiguration)
    (risk : Option Nat) (hidden : Bool) (ic : List (String × String))
    (cfg : StrategyConfiguration)
    (hbwf : ∀ p ∈ b.strategies, p.2.id = p.1)
    (hbkeys : (dictKeys b.strategies).Nodup)
    (hok : create_strategy_configuration registry id reqS reqD (some b) risk hidden ic =
      .ok cfg) :
    (∀ p ∈ b.strategies, (∀ r ∈ reqS, ¬strategyClassOf p.1 = strategyClassOf r) →
        p ∈ cfg.strategies) ∧
    (∀ (c : String) (pre post : List String) (r : String) (strat : Strategy),
        reqS = pre ++ r :: post →
        strategyClassOf r = c →
        (∀ x ∈ pre, ¬strategyClassOf x = c) →
        (∀ x ∈ post, ¬strategyClassOf x = c) →
        dictGet r registry = some strat →
        (∃ pb ∈ b.strategies, strategyClassOf pb.1 = c) →
        cfg.strategies.filter (fun p => decide (strategyClassOf p.1 = c)) = [(r, strat)]) := by
  have hbc : ∀ c : String, ∀ i ∈ bucketOf (buildByClass b.strategies []) c,
      strategyClassOf i = c := fun c => bucketOf_class b.strategies c
  unfold create_strategy_configuration at hok
  dsimp only at hok
  cases hS : add_strategies registry (buildByClass b.strategies []) reqS b.strategies with
  | error e =>
    rw [hS] at hok
    simp at hok
  | ok s₁ =>
    rw [hS] at hok
    cases hD : add_delegates registry reqD [] b.delegates with
    | error e =>
      rw [hD] at hok
      simp at hok
    | ok d₁ =>
      rw [hD] at hok
      simp only [Except.ok.injEq] at hok
      subst hok
      constructor
      · intro p hp hcls
        exact add_strategies_preserves_entry registry hreg _ hbc reqS b.strategies s₁ p hS
          hp hcls
      · intro c pre post r strat hsplit hrc hpre hpost hrg hbase
        subst hsplit
        refine add_strategies_single_class registry hreg _ hbc c pre post r strat hrc hpre
          hpost hrg b.strategies s₁ hbkeys ?_ hS
        intro p hp hc
        exact mem_bucketOf_of_key b.strategies hbwf p.1 (List.mem_map.mpr ⟨p, hp, rfl⟩) c hc

/-- Witness for the amended C4: base `base-mixed` holds `bar:x` and
`foo:base`; requesting `foo:a` keeps `bar:x` unmodified and leaves `foo:a`
as the sole class-`foo` entry. -/
theorem claim4_amended_base_override_witness :
    ((∀ p ∈ registryFoo, p.2.id = p.1) ∧
     (∀ p ∈ baseMixedConfig.strategies, p.2.id = p.1) ∧
     (dictKeys baseMixedConfig.strategies).Nodup ∧
     create_strategy_configuration registryFoo "derived" ["foo:a"] [] (some baseMixedConfig)
         none false [] =
       .ok { id := "derived", strategies := [("bar:x", stratBarX), ("foo:a", stratFooA)],
             delegates := [], initial_context := [], risk := 0, hidden := false } ∧
     (("bar:x", stratBarX) ∈ baseMixedConfig.strategies ∧
       ∀ r ∈ ["foo:a"], ¬strategyClassOf "bar:x" = strategyClassOf r) ∧
     (["foo:a"] : List String) = [] ++ "foo:a" :: [] ∧
     strategyClassOf "foo:a" = "foo" ∧
     dictGet "foo:a" registryFoo = some stratFooA ∧
     (∃ pb ∈ baseMixedConfig.strategies, strategyClassOf pb.1 = "foo")) ∧
    ("bar:x", stratBarX) ∈
      ({ id := "derived", strategies := [("bar:x", stratBarX), ("foo:a", stratFooA)],
         delegates := [], initial_context := [], risk := 0,
         hidden := false : StrategyConfiguration }).strategies ∧
    ({ id := "derived", strategies := [("bar:x", stratBarX), ("foo:a", stratFooA)],
       delegates := [], initial_context := [], risk := 0,
       hidden := false : StrategyConfiguration }).strategies.filter
        (fun p => decide (strategyClassOf p.1 = "foo")) = [("foo:a", stratFooA)] :=
  ⟨⟨by decide, by decide, by decide, by decide, ⟨by decide, by decide⟩, by decide, by decide,
    by decide, by decide⟩,
   (claim4_amended_base_override registryFoo (by decide) "derived" ["foo:a"] []
       baseMixedConfig none false []
       { id := "derived", strategies := [("bar:x", stratBarX), ("foo:a", stratFooA)],
         delegates := [], initial_context := [], risk := 0, hidden := false }
       (by decide) (by decide) (by decide)).1 ("bar:x", stratBarX) (by decide) (by decide),
   (claim4_amended_base_override registryFoo (by decide) "derived" ["foo:a"] []
       baseMixedConfig none false []
       { id := "derived", strategies := [("bar:x", stratBarX), ("foo:a", stratFooA)],
         delegates := [], initial_context := [], risk := 0, hidden := false }
       (by decide) (by decide) (by decide)).2 "foo" [] [] "foo:a" stratFooA (by decide)
     (by decide) (by decide) (by decide) (by decide) (by decide)⟩

theorem list_get_append_lt {α : Type} :
    ∀ (l₁ l₂ : List α) (n : Nat), n < l₁.length → (l₁ ++ l₂).get? n = l₁.get? n := by
  intro l₁
  induction l₁ with
  | nil =>
    intro l₂ n h
    cases h
  | cons a rest ih =>
    intro l₂ n h
    cases n with
    | zero => rfl
    | succ m => exact ih l₂ m (Nat.lt_of_succ_lt_succ h)

theorem list_get_set_ne {α : Type} :
    ∀ (l : List α) (a b : Nat) (x : α), a ≠ b → (l.set a x).get? b = l.get? b := by
  intro l
  induction l with
  | nil => intro a b x _; rfl
  | cons hd tl ih =>
    intro a b x h
    cases a with
    | zero =>
      cases b with
      | zero => exact absurd rfl h
      | succ m => rfl
    | succ n =>
      cases b with
      | zero => rfl
      | succ m => exact ih n m x (fun he => h (by rw [he]))

/-- C9: building from a base copies the base's three dicts into fresh dict
objects: the build changes no existing dict (in particular not the base's),
and a later in-place mutation of any of the base's dicts leaves the built
configuration's dicts untouched. -/
theorem claim9_copy_on_build (registry : List (String × Strategy)) (heap : DictHeap)
    (r r' : ConfigRefs) (heap' : DictHeap) (ss ds : List String)
    (ic : List (String × String))
    (hok : create_strategy_configuration_heap registry heap (some r) ss ds ic =
      .ok (r', heap'))
    (h1 : r.strategiesRef < heap.strategyDicts.length)
    (h2 : r.delegatesRef < heap.delegateDicts.length)
    (h3 : r.contextRef < heap.contextDicts.length) :
    (heap'.strategyDicts.get? r.strategiesRef = heap.strategyDicts.get? r.strategiesRef ∧
     heap'.delegateDicts.get? r.delegatesRef = heap.delegateDicts.get? r.delegatesRef ∧
     heap'.contextDicts.get? r.contextRef = heap.contextDicts.get? r.contextRef) ∧
    ((∀ d : List (String × Strategy),
        (heap'.setStrategyDict r.strategiesRef d).strategyDicts.get? r'.strategiesRef =
          heap'.strategyDicts.get? r'.strategiesRef) ∧
     (∀ d : List (String × Strategy),
        (heap'.setDelegateDict r.delegatesRef d).delegateDicts.get? r'.delegatesRef =
          heap'.delegateDicts.get? r'.delegatesRef) ∧
     (∀ d : List (String × String),
        (heap'.setContextDict r.contextRef d).contextDicts.get? r'.contextRef =
          heap'.contextDicts.get? r'.contextRef)) := by
  unfold create_strategy_configuration_heap at hok
  dsimp only at hok
  cases hS : add_strategies registry
      (buildByClass (heap.strategyDicts.getD r.strategiesRef []) []) ss
      (heap.strategyDicts.getD r.strategiesRef []) with
  | error e =>
    rw [hS] at hok
    simp at hok
  | ok s₁ =>
    rw [hS] at hok
    cases hD : add_delegates registry ds [] (heap.delegateDicts.getD r.delegatesRef []) with
    | error e =>
      rw [hD] at hok
      simp at hok
    | ok d₁ =>
      rw [hD] at hok
      simp only [Except.ok.injEq, Prod.mk.injEq] at hok
      obtain ⟨hr', hheap'⟩ := hok
      subst hr'
      subst hheap'
      refine ⟨⟨?_, ?_, ?_⟩, ?_, ?_, ?_⟩
      · exact list_get_append_lt _ _ _ h1
      · exact list_get_append_lt _ _ _ h2
      · exact list_get_append_lt _ _ _ h3
      · intro d
        exact list_get_set_ne _ _ _ _ (Nat.ne_of_lt h1)
      · intro d
        exact list_get_set_ne _ _ _ _ (Nat.ne_of_lt h2)
      · intro d
        exact list_get_set_ne _ _ _ _ (Nat.ne_of_lt h3)

/-- Witness for C9 on a one-configuration heap: building a descendant leaves
the base's dicts unchanged and writes to the base's dicts do not leak into
the freshly built configuration. -/
theorem claim9_copy_on_build_witness :
    (create_strategy_configuration_heap registryFoo
        ⟨[[("bar:x", stratBarX)]], [[]], [[("k", "v0")]]⟩ (some ⟨0, 0, 0⟩) ["foo:a"] []
        [("k", "v1")] =
      .ok (⟨1, 1, 1⟩,
        ⟨[[("bar:x", stratBarX)], [("bar:x", stratBarX), ("foo:a", stratFooA)]],
         [[], []], [[("k", "v0")], [("k", "v1")]]⟩) ∧
     (0 : Nat) < 1 ∧ (0 : Nat) < 1 ∧ (0 : Nat) < 1) ∧
    ((⟨[[("bar:x", stratBarX)], [("bar:x", stratBarX), ("foo:a", stratFooA)]],
       [[], []], [[("k", "v0")], [("k", "v1")]]⟩ : DictHeap).strategyDicts.get? 0 =
        ([[("bar:x", stratBarX)]] : List (List (String × Strategy))).get? 0 ∧
     ((⟨[[("bar:x", stratBarX)], [("bar:x", stratBarX), ("foo:a", stratFooA)]],
        [[], []], [[("k", "v0")], [("k", "v1")]]⟩ : DictHeap).setContextDict 0
          [("k", "overwritten")]).contextDicts.get? 1 =
       (⟨[[("bar:x", stratBarX)], [("bar:x", stratBarX), ("foo:a", stratFooA)]],
         [[], []], [[("k", "v0")], [("k", "v1")]]⟩ : DictHeap).contextDicts.get? 1) :=
  ⟨⟨by decide, by decide, by decide, by decide⟩,
   (claim9_copy_on_build registryFoo ⟨[[("bar:x", stratBarX)]], [[]], [[("k", "v0")]]⟩
       ⟨0, 0, 0⟩ ⟨1, 1, 1⟩
       ⟨[[("bar:x", stratBarX)], [("bar:x", stratBarX), ("foo:a", stratFooA)]],
        [[], []], [[("k", "v0")], [("k", "v1")]]⟩ ["foo:a"] [] [("k", "v1")] (by decide)
       (by decide) (by decide) (by decide)).1.1,
   (claim9_copy_on_build registryFoo ⟨[[("bar:x", stratBarX)]], [[]], [[("k", "v0")]]⟩
       ⟨0, 0, 0⟩ ⟨1, 1, 1⟩
       ⟨[[("bar:x", stratBarX)], [("bar:x", stratBarX), ("foo:a", stratFooA)]],
        [[], []], [[("k", "v0")], [("k", "v1")]]⟩ ["foo:a"] [] [("k", "v1")] (by decide)
       (by decide) (by decide) (by decide)).2.2.2 [("k", "overwritten")]⟩

end SentryGrouping
